import Mathlib

/-!
Verification of the fdb-otel-exporter metric extraction engine.

This file gives a shallow embedding of the parts of the exporter that the
checked properties talk about:

* `fdb_gauge.rs`: the four standard recorders (`SimpleFDBGauge`,
  `TotalCounterFDBGauge`, `RateCounterFDBGauge`, `ElapsedRateFDBGauge`),
  the 15-second rolling-window smoother they share, the
  `HistogramPercentileFDBGauge` bucket builder and the exponential
  percentile interpolator `interpolate_exponential_percentile`.
* `gauge_config.rs`: percentile validation, the percentile suffix
  formatter and `parse_typed_gauge_configs` / `read_gauge_config_file`.
* `log_metrics.rs`: `LogMetrics::record` label construction and dispatch.

Modelling conventions:

* Rust `f64` values that the code parses from trace-event strings and
  feeds through additions, divisions and comparisons are modelled as
  exact rationals (`ℚ`); the transcendental interpolation arithmetic
  (`exp`, `ln`) is modelled over the reals (`ℝ`).  Overflow, rounding
  and non-finite values of `f64` are outside the model; the only
  explicitly non-finite value the interpolator manufactures
  (`f64::INFINITY` for a degenerate rate) is modelled by an `Option`.
* `u64` is modelled as `ℕ`; `saturating_sub` is truncated subtraction,
  which agrees with it.
* Rust `Result<T, anyhow::Error>` is modelled as `Except String T`;
  error strings follow the source's `context` messages.
* The OpenTelemetry gauge instrument is modelled by the optional value a
  call to `record` would write (`Option ℚ` / `Option ℝ`): `none` means
  the instrument is not touched.
* `HashMap` keyed smoother state is modelled as a function from the
  canonicalised label key to the deque (front of the deque = head of the
  list).
-/

set_option maxHeartbeats 1000000

namespace FdbOtel

/-! ### Characters, tokens and number parsing (`str.split(' ')`, `parse::<f64>`, `parse::<u64>`) -/

/-- The space character, the separator used by `value.split(' ')`. -/
def spaceChar : Char := Char.ofNat 32

/-- Split a character list at every space, keeping empty segments, like
Rust's `str::split(' ')` (`"".split(' ')` yields one empty segment). -/
def splitSpacesAux : List Char → List Char → List (List Char)
  | [], acc => [acc.reverse]
  | c :: cs, acc =>
    if c = spaceChar then acc.reverse :: splitSpacesAux cs []
    else splitSpacesAux cs (c :: acc)

/-- `s.split(' ')` as a list of strings. -/
def splitSpaces (s : String) : List String :=
  (splitSpacesAux s.data []).map (fun l => String.mk l)

/-- Numeric value of a digit list, most significant first. -/
def natOfDigits (l : List Char) : ℕ :=
  l.foldl (fun n c => 10 * n + (c.toNat - 48)) 0

/-- Strip one optional sign, returning the sign as a rational. -/
def readSign : List Char → ℚ × List Char
  | [] => (1, [])
  | c :: rest =>
    if c = '+' then (1, rest)
    else if c = '-' then (-1, rest)
    else (1, c :: rest)

/-- Split at the first exponent marker `e`/`E`. -/
def splitExpMarker : List Char → List Char × Option (List Char)
  | [] => ([], none)
  | c :: rest =>
    if c = 'e' ∨ c = 'E' then ([], some rest)
    else
      let (m, e) := splitExpMarker rest
      (c :: m, e)

/-- Split at the first `.`. -/
def splitDot : List Char → List Char × Option (List Char)
  | [] => ([], none)
  | c :: rest =>
    if c = '.' then ([], some rest)
    else
      let (m, e) := splitDot rest
      (c :: m, e)

/-- Exponent part: optional sign then at least one digit. -/
def parseExponent (cs : List Char) : Option ℤ :=
  let (sgn, ds) := readSign cs
  if ds ≠ [] ∧ ds.all Char.isDigit then
    some ((if sgn = 1 then 1 else -1) * (natOfDigits ds : ℤ))
  else none

/-- `s.parse::<f64>()` modelled exactly over `ℚ` for the finite decimal
forms (optional sign, digits with an optional fraction, optional
exponent).  The `inf`/`nan` spellings Rust also accepts have no rational
counterpart and parse to `none` here; no claim exercises them. -/
def parseF64 (s : String) : Option ℚ :=
  match s.data with
  | [] => none
  | cs =>
    let (sgn, cs1) := readSign cs
    let (mant, expPart) := splitExpMarker cs1
    let (ip, fpOpt) := splitDot mant
    let fp := fpOpt.getD []
    if ip.all Char.isDigit ∧ fp.all Char.isDigit ∧ ¬(ip = [] ∧ fp = []) ∧ cs1 ≠ [] then
      match expPart with
      | none => some (sgn * ((natOfDigits ip : ℚ) + (natOfDigits fp : ℚ) / (10 : ℚ) ^ fp.length))
      | some ecs =>
        match parseExponent ecs with
        | some e =>
          some (sgn * ((natOfDigits ip : ℚ) + (natOfDigits fp : ℚ) / (10 : ℚ) ^ fp.length)
            * (10 : ℚ) ^ e)
        | none => none
    else none

/-- Rust `str::trim`: strip leading and trailing whitespace.  (Stated
over the character list so that it evaluates; `String.trim` agrees on
the ASCII whitespace the configs contain.) -/
def rustTrim (s : String) : String :=
  String.mk
    (((s.data.dropWhile Char.isWhitespace).reverse.dropWhile Char.isWhitespace).reverse)

/-- `s.parse::<u64>()` (optional `+`, then digits; overflow is outside the
model). -/
def parseU64 (s : String) : Option ℕ :=
  let cs := match s.data with
    | '+' :: rest => rest
    | l => l
  if cs ≠ [] ∧ cs.all Char.isDigit then some (natOfDigits cs) else none

/-- `Result`-style mapping over a list (`collect` on an iterator of
results): first error wins, otherwise the list of successes. -/
def mapExcept (f : α → Except String β) : List α → Except String (List β)
  | [] => .ok []
  | a :: rest =>
    match f a with
    | .error e => .error e
    | .ok b =>
      match mapExcept f rest with
      | .error e => .error e
      | .ok bs => .ok (b :: bs)

/-! ### Trace events (`serde_json::Value` restricted to what the code inspects) -/

/-- A JSON value as far as the recorders can observe it: `as_str` either
yields the string or fails.  All non-string JSON values are collapsed
into one constructor because the code only ever calls `as_str`. -/
inductive Json where
  | str (s : String)
  | nonString
  deriving DecidableEq

/-- `HashMap<String, Value>`; keys are assumed unique (guaranteed by the
JSON decoder), so association-list lookup matches `HashMap::get`. -/
def Event := List (String × Json)

/-- `fn get_trace_field`: fetch a field and require it to be a string. -/
def get_trace_field (trace_event : Event) (field_name : String) : Except String String :=
  match List.lookup field_name trace_event with
  | some (Json.str s) => .ok s
  | _ => .error ("Missing " ++ field_name ++ " field")

/-! ### Rolling-window smoother (`ROLLING_WINDOW_SECONDS`, `TimedSample`, `LabelKey`) -/

/-- `const ROLLING_WINDOW_SECONDS: f64 = 15.0`. -/
def ROLLING_WINDOW_SECONDS : ℚ := 15

/-- `struct TimedSample { time: f64, value: f64 }`. -/
structure TimedSample where
  time : ℚ
  value : ℚ
  deriving DecidableEq

/-- Push the new sample on the back of the deque, then pop stale samples
from the front while `time - front.time > ROLLING_WINDOW_SECONDS`
(the shared loop of the three smoothed recorders). -/
def stepWindow (w : List TimedSample) (time value : ℚ) : List TimedSample :=
  (w ++ [TimedSample.mk time value]).dropWhile
    (fun s => decide (ROLLING_WINDOW_SECONDS < time - s.time))

/-- The emitted value: mean of the samples still in the window
(`sample` itself if the window were empty, as in the source's dead
`count == 0.0` branch). -/
def windowMeanOrSample (w : List TimedSample) (sample : ℚ) : ℚ :=
  if w.length = 0 then sample else ((w.map TimedSample.value).sum) / (w.length : ℚ)

/-- `LabelKey`: label pairs sorted by name, then value. -/
def LabelKey := List (String × String)

instance : DecidableEq LabelKey := by
  unfold LabelKey
  infer_instance

/-- The comparator `a.0.cmp(&b.0).then(a.1.cmp(&b.1))` as "strictly
less". -/
def pairLt (a b : String × String) : Bool :=
  decide (a.1 < b.1) || (decide (a.1 = b.1) && decide (a.2 < b.2))

/-- Stable insertion keeping the list sorted by `pairLt`. -/
def insertPair (x : String × String) : List (String × String) → List (String × String)
  | [] => [x]
  | y :: ys => if pairLt x y then x :: y :: ys else y :: insertPair x ys

/-- `LabelKey::from_labels`: sort the `(name, value)` pairs. -/
def from_labels (labels : List (String × String)) : LabelKey :=
  labels.foldl (fun acc p => insertPair p acc) []

/-- Smoother state: per-label-key deque, i.e. the
`HashMap<LabelKey, VecDeque<TimedSample>>` behind the mutex. -/
def SmootherState := LabelKey → List TimedSample

/-- Fresh, empty smoother state. -/
def emptySmoother : SmootherState := fun _ => []

/-- `samples.entry(key).or_insert_with(VecDeque::new)` followed by the
window update, as a state update. -/
def updateSmoother (st : SmootherState) (k : LabelKey) (w : List TimedSample) : SmootherState :=
  fun k2 => if k2 = k then w else st k2

/-! ### Standard recorders -/

/-- Configuration part of `FDBGaugeImpl` (the gauge instrument itself is
modelled by the emitted value). -/
structure FDBGaugeImpl where
  trace_type : String
  field_name : String

/-- `SimpleFDBGauge` (its smoother state is passed explicitly). -/
structure SimpleFDBGauge where
  gauge_impl : FDBGaugeImpl

/-- `impl FDBGauge for SimpleFDBGauge`: parse the configured field
directly as a float, smooth, emit the window mean.  (The `?` early
returns of the source are the `.error` arms.) -/
def SimpleFDBGauge.record (g : SimpleFDBGauge) (st : SmootherState) (trace_event : Event)
    (labels : List (String × String)) : Except String (SmootherState × Option ℚ) :=
  match get_trace_field trace_event "Type" with
  | .error msg => .error msg
  | .ok trace_type =>
    if trace_type = g.gauge_impl.trace_type then
      match get_trace_field trace_event g.gauge_impl.field_name with
      | .error msg => .error msg
      | .ok value =>
        match parseF64 value with
        | none => .error "invalid float literal"
        | some sample =>
          match get_trace_field trace_event "Time" with
          | .error msg => .error msg
          | .ok timeStr =>
            match parseF64 timeStr with
            | none => .error "invalid float literal"
            | some time =>
              let key := from_labels labels
              let window := stepWindow (st key) time sample
              let averaged := windowMeanOrSample window sample
              .ok (updateSmoother st key window, some averaged)
    else
      .ok (st, none)

/-- `TotalCounterFDBGauge` (stateless). -/
structure TotalCounterFDBGauge where
  gauge_impl : FDBGaugeImpl

/-- `impl FDBGauge for TotalCounterFDBGauge`: take token 2 of the
space-separated counter triple. -/
def TotalCounterFDBGauge.record (g : TotalCounterFDBGauge) (trace_event : Event)
    (labels : List (String × String)) : Except String (Option ℚ) :=
  let _ := labels
  match get_trace_field trace_event "Type" with
  | .error msg => .error msg
  | .ok trace_type =>
    if trace_type = g.gauge_impl.trace_type then
      match get_trace_field trace_event g.gauge_impl.field_name with
      | .error msg => .error msg
      | .ok value =>
        match (splitSpaces value).get? 2 with
        | none => .error ("Malformed " ++ g.gauge_impl.field_name ++ " counter")
        | some tok =>
          match parseF64 tok with
          | none => .error "invalid float literal"
          | some parsed => .ok (some parsed)
    else
      .ok none

/-- `RateCounterFDBGauge`. -/
structure RateCounterFDBGauge where
  gauge_impl : FDBGaugeImpl

/-- `impl FDBGauge for RateCounterFDBGauge`: take token 0 of the counter
triple (`split(' ').next()` always yields a token), smooth, emit the
window mean. -/
def RateCounterFDBGauge.record (g : RateCounterFDBGauge) (st : SmootherState)
    (trace_event : Event) (labels : List (String × String)) :
    Except String (SmootherState × Option ℚ) :=
  match get_trace_field trace_event "Type" with
  | .error msg => .error msg
  | .ok trace_type =>
    if trace_type = g.gauge_impl.trace_type then
      match get_trace_field trace_event g.gauge_impl.field_name with
      | .error msg => .error msg
      | .ok value =>
        match (splitSpaces value).head? with
        | none => .error ("Malformed " ++ g.gauge_impl.field_name ++ " counter")
        | some tok =>
          match parseF64 tok with
          | none => .error "invalid float literal"
          | some sample =>
            match get_trace_field trace_event "Time" with
            | .error msg => .error msg
            | .ok timeStr =>
              match parseF64 timeStr with
              | none => .error "invalid float literal"
              | some time =>
                let key := from_labels labels
                let window := stepWindow (st key) time sample
                let averaged := windowMeanOrSample window sample
                .ok (updateSmoother st key window, some averaged)
    else
      .ok (st, none)

/-- `ElapsedRateFDBGauge`. -/
structure ElapsedRateFDBGauge where
  gauge_impl : FDBGaugeImpl

/-- `impl FDBGauge for ElapsedRateFDBGauge`: `value / elapsed`, smoothed.
(`ℚ` division by zero yields `0` where `f64` would yield an infinity;
no claim exercises a zero `Elapsed`.) -/
def ElapsedRateFDBGauge.record (g : ElapsedRateFDBGauge) (st : SmootherState)
    (trace_event : Event) (labels : List (String × String)) :
    Except String (SmootherState × Option ℚ) :=
  match get_trace_field trace_event "Type" with
  | .error msg => .error msg
  | .ok trace_type =>
    if trace_type = g.gauge_impl.trace_type then
      match get_trace_field trace_event g.gauge_impl.field_name with
      | .error msg => .error msg
      | .ok valueStr =>
        match parseF64 valueStr with
        | none => .error "invalid float literal"
        | some value =>
          match get_trace_field trace_event "Elapsed" with
          | .error msg => .error msg
          | .ok elapsedStr =>
            match parseF64 elapsedStr with
            | none => .error "invalid float literal"
            | some elapsed =>
              match get_trace_field trace_event "Time" with
              | .error msg => .error msg
              | .ok timeStr =>
                match parseF64 timeStr with
                | none => .error "invalid float literal"
                | some time =>
                  let sample := value / elapsed
                  let key := from_labels labels
                  let window := stepWindow (st key) time sample
                  let averaged := windowMeanOrSample window sample
                  .ok (updateSmoother st key window, some averaged)
    else
      .ok (st, none)

/-! ### Histogram buckets (`HistogramUnit`, `HistogramBucket`, bucket building) -/

/-- `enum HistogramUnit`. -/
inductive HistogramUnit where
  | milliseconds
  | bytes
  | count
  deriving DecidableEq

/-- `HistogramUnit::divisor`. -/
def HistogramUnit.divisor : HistogramUnit → ℝ
  | .milliseconds => 1000000
  | .bytes => 1
  | .count => 1

/-- `HistogramUnit::convert_bucket_upper`: `(bucket_value * 1000.0) as u64`
for milliseconds, `bucket_value as u64` otherwise.  The `as u64` cast
truncates toward zero and saturates negatives at `0`, which on rationals
is `Int.toNat ∘ floor`. -/
def HistogramUnit.convert_bucket_upper (u : HistogramUnit) (bucket_value : ℚ) : ℕ :=
  match u with
  | .milliseconds => (⌊bucket_value * 1000⌋).toNat
  | .bytes => (⌊bucket_value⌋).toNat
  | .count => (⌊bucket_value⌋).toNat

/-- `struct HistogramBucket` (`u64` fields as `ℕ`). -/
structure HistogramBucket where
  lower_bound : ℕ
  upper_bound : ℕ
  count : ℕ
  cumulative_count : ℕ
  deriving DecidableEq

/-- The all-zero bucket, used only as the (unreachable) default of a
checked index access. -/
def defaultBucket : HistogramBucket := ⟨0, 0, 0, 0⟩

/-- `BTreeMap::insert` on a list sorted by key: keep the keys ordered and
replace an existing key. -/
def insertSortedKV (k v : ℕ) : List (ℕ × ℕ) → List (ℕ × ℕ)
  | [] => [(k, v)]
  | (k2, v2) :: rest =>
    if k < k2 then (k, v) :: (k2, v2) :: rest
    else if k = k2 then (k, v) :: rest
    else (k2, v2) :: insertSortedKV k v rest

/-- The gap-filling `while expected_upper < upper_bound` loop: push
zero-count buckets at the geometric grid, doubling `expected_upper`
(`saturating_mul(2)`; the `== 0` break can only fire when the grid
starts at zero).  Returns the synthesised buckets. -/
def fillGapBuckets (upper_bound cumulative : ℕ) (expected_upper : ℕ) :
    List HistogramBucket × ℕ :=
  if h : expected_upper < upper_bound then
    let b : HistogramBucket := ⟨expected_upper / 2, expected_upper, 0, cumulative⟩
    let e2 := expected_upper * 2
    if h2 : e2 = 0 then ([b], e2)
    else
      let (rest, ef) := fillGapBuckets upper_bound cumulative e2
      (b :: rest, ef)
  else ([], expected_upper)
termination_by upper_bound - expected_upper
decreasing_by
  simp only [e2] at h2
  omega

/-- The bucket-building loop body of `HistogramPercentileFDBGauge::record`:
walk the sorted `(upper_bound, count)` entries, synthesise gap buckets,
accumulate cumulative counts, set the lower bound to `upper / 2`, and
double the expected upper (`checked_mul(2)`; no overflow over `ℕ`). -/
def buildBucketsAux : List (ℕ × ℕ) → ℕ → ℕ → List HistogramBucket
  | [], _, _ => []
  | (upper_bound, count) :: rest, cumulative, expected_upper =>
    let gaps := (fillGapBuckets upper_bound cumulative expected_upper).1
    let cum2 := cumulative + count
    let b : HistogramBucket := ⟨upper_bound / 2, upper_bound, count, cum2⟩
    gaps ++ (b :: buildBucketsAux rest cum2 (upper_bound * 2))

/-- Build the bucket vector from the sorted histogram entries; the
initial expected upper is the first entry's upper bound. -/
def buildBuckets (entries : List (ℕ × ℕ)) : List HistogramBucket :=
  match entries with
  | [] => []
  | (e0, _) :: _ => buildBucketsAux entries 0 e0

/-! ### The exponential percentile interpolator -/

/-- `f64::clamp` under the caller's guarantee `lo ≤ hi` (the source would
panic otherwise; every use site in the interpolator satisfies it on the
paths the claims exercise). -/
noncomputable def clampR (x lo hi : ℝ) : ℝ := max lo (min x hi)

/-- `f64::EPSILON`, the machine epsilon `2⁻⁵²`. -/
noncomputable def f64Epsilon : ℝ := 1 / 2 ^ 52

/-- The bucket-selection loop: first index whose bucket has a nonzero
count and cumulative count (as a float) at least the target rank. -/
noncomputable def selectIdxAux (target_rank : ℝ) : List HistogramBucket → Option ℕ
  | [] => none
  | b :: rest =>
    if b.count ≠ 0 ∧ target_rank ≤ (b.cumulative_count : ℝ) then some 0
    else (selectIdxAux target_rank rest).map (· + 1)

/-- `bucket_index`: the loop's result, defaulting to
`buckets.len().saturating_sub(1)` when no bucket reaches the rank. -/
noncomputable def selectIndex (buckets : List HistogramBucket) (target_rank : ℝ) : ℕ :=
  (selectIdxAux target_rank buckets).getD (buckets.length - 1)

/-- The tail of the interpolation once a positive, finite `λ` is in
hand: clamp the relative percentile to `[0, 1 - ε]`, invert the
exponential CDF between the bucket bounds, clamp into the bucket.  The
`!value.is_finite()` check is an identity over `ℝ` and is dropped. -/
noncomputable def interpolateWithLambda (lam percentile prev_cdf bucket_mass
    bucket_lower_value bucket_upper_value : ℝ) : ℝ :=
  if lam ≤ 0 then bucket_upper_value
  else
    let relative_percentile := clampR ((percentile - prev_cdf) / bucket_mass) 0 (1 - f64Epsilon)
    let exp_neg_lambda_lower := Real.exp (-lam * bucket_lower_value)
    let exp_neg_lambda_upper := Real.exp (-lam * bucket_upper_value)
    let denom := exp_neg_lambda_lower - exp_neg_lambda_upper
    if denom ≤ 0 then bucket_upper_value
    else
      let target := exp_neg_lambda_lower - relative_percentile * denom
      if target ≤ 0 then bucket_upper_value
      else clampR (-Real.log target / lam) bucket_lower_value bucket_upper_value

/-- Everything `interpolate_exponential_percentile` does after choosing
the target bucket.  The `λ = f64::INFINITY` degenerate branch is the
`none` arm of `lambdaOpt` (together with the `!lambda.is_finite()`
check, which over `ℝ` only that branch can trigger). -/
noncomputable def interpolateInBucket (bucket : HistogramBucket) (total_count : ℕ)
    (percentile : ℝ) (unit_divisor : ℝ) : ℝ :=
  let bucket_lower_value := (bucket.lower_bound : ℝ) / unit_divisor
  let bucket_upper_value := (bucket.upper_bound : ℝ) / unit_divisor
  if bucket_upper_value ≤ 0 then bucket_upper_value
  else
    let total_count_f64 : ℝ := (total_count : ℝ)
    let bucket_cdf := (bucket.cumulative_count : ℝ) / total_count_f64
    let lower_cumulative_count := bucket.cumulative_count - bucket.count
    let prev_cdf := (lower_cumulative_count : ℝ) / total_count_f64
    let bucket_mass := (bucket.count : ℝ) / total_count_f64
    if bucket_mass ≤ 0 then bucket_upper_value
    else if percentile ≤ prev_cdf then bucket_lower_value
    else
      let lambdaOpt : Option ℝ :=
        if 1 ≤ bucket_cdf then
          if 0 < bucket_lower_value ∧ prev_cdf < 1 then
            some (-Real.log (1 - prev_cdf) / bucket_lower_value)
          else none
        else some (-Real.log (1 - bucket_cdf) / bucket_upper_value)
      match lambdaOpt with
      | none => bucket_upper_value
      | some lam =>
        interpolateWithLambda lam percentile prev_cdf bucket_mass
          bucket_lower_value bucket_upper_value

/-- `fn interpolate_exponential_percentile`.  The `!unit_divisor.is_finite()`
guard is an identity over `ℝ` and is dropped; the `percentile.clamp(0.0, 1.0)`
and the `percentile >= 1.0` early return are kept verbatim. -/
noncomputable def interpolate_exponential_percentile (buckets : List HistogramBucket)
    (total_count : ℕ) (percentile : ℝ) (unit_divisor : ℝ) : Option ℝ :=
  if buckets.isEmpty ∨ total_count = 0 ∨ unit_divisor ≤ 0 then none
  else
    let p := clampR percentile 0 1
    if 1 ≤ p then
      buckets.getLast?.map (fun bucket => (bucket.upper_bound : ℝ) / unit_divisor)
    else
      let target_rank := p * (total_count : ℝ)
      let bucket_index := selectIndex buckets target_rank
      some (interpolateInBucket (buckets.getD bucket_index defaultBucket) total_count p unit_divisor)

/-! ### The histogram percentile recorder -/

/-- `struct HistogramPercentileFDBGauge` (the gauge instrument is again
modelled by the emitted value). -/
structure HistogramPercentileFDBGauge where
  percentile : ℝ
  group : String
  op : String

/-- Collect the `LessThan*` fields into the sorted `(upper, count)` map,
in event iteration order (the order is immaterial because the map is
sorted and event keys are unique). -/
def collectBucketEntriesAux (unit : HistogramUnit) :
    List (String × Json) → List (ℕ × ℕ) → Except String (List (ℕ × ℕ))
  | [], acc => .ok acc
  | kv :: rest, acc =>
    if kv.1.startsWith "LessThan" then
      match parseF64 (kv.1.drop 8) with
      | none => .error "invalid float literal"
      | some bucket_value =>
        match kv.2 with
        | Json.nonString => .error "Trace event values should be strings"
        | Json.str s =>
          match parseU64 s with
          | none => .error "invalid digit found in string"
          | some count =>
            collectBucketEntriesAux unit rest
              (insertSortedKV (unit.convert_bucket_upper bucket_value) count acc)
    else collectBucketEntriesAux unit rest acc

/-- The `LessThan` collection loop of the histogram recorder. -/
def collectBucketEntries (trace_event : Event) (unit : HistogramUnit) :
    Except String (List (ℕ × ℕ)) :=
  collectBucketEntriesAux unit trace_event []

/-- `impl FDBGauge for HistogramPercentileFDBGauge`: the `Type`, `Group`,
`Op` and `Unit` filters, the `TotalCount` guard, bucket building and the
interpolation. -/
noncomputable def HistogramPercentileFDBGauge.record (g : HistogramPercentileFDBGauge)
    (trace_event : Event) (labels : List (String × String)) : Except String (Option ℝ) :=
  let _ := labels
  match get_trace_field trace_event "Type" with
  | .error msg => .error msg
  | .ok t =>
    if t ≠ "Histogram" then .ok none
    else
      match get_trace_field trace_event "Group" with
      | .error msg => .error msg
      | .ok grp =>
        if grp ≠ g.group then .ok none
        else
          match get_trace_field trace_event "Op" with
          | .error msg => .error msg
          | .ok op =>
            if op ≠ g.op then .ok none
            else
              match get_trace_field trace_event "Unit" with
              | .error msg => .error msg
              | .ok unit_str =>
                match (if unit_str = "milliseconds" then some HistogramUnit.milliseconds
                       else if unit_str = "bytes" then some HistogramUnit.bytes
                       else if unit_str = "count" then some HistogramUnit.count
                       else none) with
                | none => .ok none
                | some unit =>
                  match get_trace_field trace_event "TotalCount" with
                  | .error msg => .error msg
                  | .ok totalStr =>
                    match parseU64 totalStr with
                    | none => .error "invalid digit found in string"
                    | some total_count =>
                      if total_count = 0 then .ok none
                      else
                        match collectBucketEntries trace_event unit with
                        | .error msg => .error msg
                        | .ok entries =>
                          if entries.isEmpty then .ok none
                          else
                            let buckets := buildBuckets entries
                            match interpolate_exponential_percentile buckets total_count
                                g.percentile unit.divisor with
                            | some interpolated_value => .ok (some interpolated_value)
                            | none => .ok none

/-! ### Gauge configuration (`gauge_config.rs`) -/

/-- A TOML float as the toml crate hands it to serde: either a finite
value (exact rational) or one of the non-finite spellings. -/
inductive TFloat where
  | finite (q : ℚ)
  | nan
  | posInfinity
  | negInfinity
  deriving DecidableEq

/-- `f64::is_finite`. -/
def TFloat.isFinite : TFloat → Bool
  | .finite _ => true
  | _ => false

/-- `toml::Value` (the variants the config loader inspects; datetimes
never appear in a gauge config and are omitted). -/
inductive TomlValue where
  | str (s : String)
  | int (n : ℤ)
  | float (f : TFloat)
  | boolean (b : Bool)
  | array (xs : List TomlValue)
  | table (xs : List (String × TomlValue))

/-- `fn validate_percentile`: finite, then within `[0, 1]`. -/
def validate_percentile (value : TFloat) : Except String ℚ :=
  match value with
  | .finite q =>
    if ¬(0 ≤ q ∧ q ≤ 1) then .error "percentile must be between 0.0 and 1.0"
    else .ok q
  | _ => .error "percentile must be finite"

/-- serde's `f64` deserialization from a toml value: floats directly,
integers through `visit_i64`. -/
def deserializeF64 (v : TomlValue) : Except String TFloat :=
  match v with
  | .float f => .ok f
  | .int n => .ok (.finite (n : ℚ))
  | _ => .error "invalid type: expected a float"

/-- `fn deserialize_percentiles`: deserialize the list, reject an empty
list, validate every entry. -/
def deserialize_percentiles (v : TomlValue) : Except String (List ℚ) :=
  match v with
  | .array xs =>
    match mapExcept deserializeF64 xs with
    | .error e => .error e
    | .ok floats =>
      if floats.isEmpty then .error "percentiles list cannot be empty"
      else mapExcept validate_percentile floats
  | _ => .error "invalid type: expected an array"

/-! #### Percentile formatting (`percentile_display`, `percentile_suffix`) -/

/-- Round to the nearest integer, ties to even — the rounding Rust's
fixed-precision float formatting applies to the (here exact) value. -/
def roundHalfEven (x : ℚ) : ℤ :=
  let f := ⌊x⌋
  let r := x - (f : ℚ)
  if r < 1 / 2 then f
  else if 1 / 2 < r then f + 1
  else if f % 2 = 0 then f else f + 1

/-- Left-pad with zeros to the given width. -/
def padZeros (s : String) (n : ℕ) : String :=
  if s.length < n then String.mk (List.replicate (n - s.length) '0') ++ s else s

/-- `format!("{:.6}", x)` over the exact value: six decimal places, ties
to even.  (Exact decimal ties cannot arise from a binary `f64`, so the
tie-breaking convention is immaterial for values the code can see.) -/
def formatFixed6 (x : ℚ) : String :=
  let n := roundHalfEven (x * 1000000)
  let sign := if n < 0 then "-" else ""
  let m := n.natAbs
  sign ++ toString (m / 1000000) ++ "." ++ padZeros (toString (m % 1000000)) 6

/-- The trailing-zero trim loop
(`while value.contains('.') && value.ends_with('0') { value.pop(); }`). -/
def trimTrailingZeros (s : String) : String :=
  if s.data.contains '.' then String.mk ((s.data.reverse.dropWhile (fun c => c = '0')).reverse)
  else s

/-- `value.ends_with('.')`, over the character list so it evaluates. -/
def endsWithDot (s : String) : Bool :=
  match s.data.getLast? with
  | some c => c = '.'
  | none => false

/-- `value.pop()`: drop the last character. -/
def dropLastChar (s : String) : String := String.mk s.data.dropLast

/-- `.replace('.', "_")` for the single-character pattern. -/
def replaceDotUnderscore (s : String) : String :=
  String.mk (s.data.map (fun c => if c = '.' then '_' else c))

/-- `fn percentile_display`: percentage with six decimals, trailing zeros
trimmed, then a trailing dot trimmed. -/
def percentile_display (percentile : ℚ) : String :=
  let value := trimTrailingZeros (formatFixed6 (percentile * 100))
  if endsWithDot value then dropLastChar value else value

/-- `fn percentile_suffix`: `p` plus the display with `.` replaced by `_`. -/
def percentile_suffix (percentile : ℚ) : String :=
  "p" ++ replaceDotUnderscore (percentile_display percentile)

/-! #### Typed gauge definitions and the section walk -/

/-- `struct GaugeConfigEntry`. -/
structure GaugeConfigEntry where
  trace_type : String
  gauge_name : String
  field_name : String
  description : String
  deriving DecidableEq

/-- `struct HistogramGaugeConfigEntry` (percentiles already validated). -/
structure HistogramGaugeConfigEntry where
  group : String
  op : String
  percentiles : List ℚ
  gauge_name : String
  description : String
  deriving DecidableEq

/-- `struct StandardGaugeDefinition`. -/
structure StandardGaugeDefinition where
  trace_type : String
  gauge_name : String
  field_name : String
  description : String
  deriving DecidableEq

/-- `struct HistogramPercentileGaugeDefinition`. -/
structure HistogramPercentileGaugeDefinition where
  group : String
  op : String
  percentile : ℚ
  gauge_name : String
  description : String
  deriving DecidableEq

/-- `enum GaugeDefinition`. -/
inductive GaugeDefinition where
  | simple (d : StandardGaugeDefinition)
  | counterTotal (d : StandardGaugeDefinition)
  | counterRate (d : StandardGaugeDefinition)
  | elapsedRate (d : StandardGaugeDefinition)
  | histogramPercentile (d : HistogramPercentileGaugeDefinition)
  deriving DecidableEq

/-- `enum GaugeType`. -/
inductive GaugeType where
  | Simple
  | CounterTotal
  | CounterRate
  | ElapsedRate
  deriving DecidableEq

/-- `GaugeType::from_section_name`. -/
def GaugeType.from_section_name (section_name : String) : Option GaugeType :=
  if section_name = "simple_gauge" then some .Simple
  else if section_name = "counter_total_gauge" then some .CounterTotal
  else if section_name = "counter_rate_gauge" then some .CounterRate
  else if section_name = "elapsed_rate_gauge" then some .ElapsedRate
  else none

/-- serde string-field extraction from a TOML table (unknown fields are
ignored, missing or mistyped fields fail). -/
def getStringField (kvs : List (String × TomlValue)) (name : String) : Except String String :=
  match List.lookup name kvs with
  | some (.str s) => .ok s
  | some _ => .error ("invalid type for field " ++ name)
  | none => .error ("missing field " ++ name)

/-- `GaugeConfigEntry` deserialization from a TOML value. -/
def gaugeEntryOfToml (v : TomlValue) : Except String GaugeConfigEntry :=
  match v with
  | .table kvs =>
    match getStringField kvs "trace_type" with
    | .error e => .error e
    | .ok tt =>
      match getStringField kvs "gauge_name" with
      | .error e => .error e
      | .ok gn =>
        match getStringField kvs "field_name" with
        | .error e => .error e
        | .ok fn =>
          match getStringField kvs "description" with
          | .error e => .error e
          | .ok d => .ok ⟨tt, gn, fn, d⟩
  | _ => .error "invalid type: expected a table"

/-- `HistogramGaugeConfigEntry` deserialization, with the custom
`deserialize_percentiles` on the `percentiles` field. -/
def histEntryOfToml (v : TomlValue) : Except String HistogramGaugeConfigEntry :=
  match v with
  | .table kvs =>
    match getStringField kvs "group" with
    | .error e => .error e
    | .ok g =>
      match getStringField kvs "op" with
      | .error e => .error e
      | .ok o =>
        match List.lookup "percentiles" kvs with
        | none => .error "missing field percentiles"
        | some pv =>
          match deserialize_percentiles pv with
          | .error e => .error e
          | .ok ps =>
            match getStringField kvs "gauge_name" with
            | .error e => .error e
            | .ok gn =>
              match getStringField kvs "description" with
              | .error e => .error e
              | .ok d => .ok ⟨g, o, ps, gn, d⟩
  | _ => .error "invalid type: expected a table"

/-- The per-entry expansion loop of `parse_typed_gauge_configs`: one
definition per percentile, with suffixed names and descriptions when the
entry holds more than one percentile. -/
def expandHistogramEntry (entry : HistogramGaugeConfigEntry) : List GaugeDefinition :=
  let total := entry.percentiles.length
  entry.percentiles.map (fun percentile =>
    let gauge_name :=
      if total = 1 then entry.gauge_name
      else entry.gauge_name ++ "_" ++ percentile_suffix percentile
    let description :=
      if total = 1 then entry.description
      else entry.description ++ " (p" ++ percentile_display percentile ++ ")"
    GaugeDefinition.histogramPercentile
      ⟨entry.group, entry.op, percentile, gauge_name, description⟩)

/-- Process one recognised standard section's entry array. -/
def standardSectionDefs (gauge_type : GaugeType) (arr : List TomlValue) :
    Except String (List GaugeDefinition) :=
  match mapExcept gaugeEntryOfToml arr with
  | .error e => .error e
  | .ok entries =>
    .ok (entries.map (fun e =>
      let standard : StandardGaugeDefinition :=
        ⟨e.trace_type, e.gauge_name, e.field_name, e.description⟩
      match gauge_type with
      | .Simple => GaugeDefinition.simple standard
      | .CounterTotal => GaugeDefinition.counterTotal standard
      | .CounterRate => GaugeDefinition.counterRate standard
      | .ElapsedRate => GaugeDefinition.elapsedRate standard))

/-- The section walk of `parse_typed_gauge_configs`, threading the
accumulated definitions and the `recognized_any` flag. -/
def parseSections : List (String × TomlValue) → List GaugeDefinition → Bool →
    Except String (List GaugeDefinition × Bool)
  | [], gauges, recognized => .ok (gauges, recognized)
  | sec :: rest, gauges, recognized =>
    if sec.1 = "histogram_percentile_gauge" then
      match sec.2 with
      | TomlValue.array xs =>
        (match mapExcept histEntryOfToml xs with
         | .error e => .error e
         | .ok entries =>
           parseSections rest (gauges ++ (entries.map expandHistogramEntry).flatten) true)
      | _ => .error ("expected " ++ sec.1 ++ " section to be an array")
    else
      match GaugeType.from_section_name sec.1 with
      | none => parseSections rest gauges recognized
      | some gauge_type =>
        match sec.2 with
        | TomlValue.array xs =>
          (match standardSectionDefs gauge_type xs with
           | .error e => .error e
           | .ok defs => parseSections rest (gauges ++ defs) true)
        | _ => .error ("expected " ++ sec.1 ++ " section to be an array")

/-- `fn parse_typed_gauge_configs`: walk the sections, expand recognised
ones, fail if none was recognised. -/
def parse_typed_gauge_configs (value : TomlValue) : Except String (List GaugeDefinition) :=
  match value with
  | .table sections =>
    match parseSections sections [] false with
    | .error e => .error e
    | .ok st =>
      if st.2 then .ok st.1
      else .error "gauge config file did not contain any recognized sections"
  | _ => .error "expected gauge config file to be a TOML table"

/-- `fn read_gauge_config_file`.  Reading the file from disk and running
the toml crate's parser are external to the repository, so both are
inputs here: `contents` is the outcome of `fs::read_to_string`
(`none` = the read failed) and `parsed` the outcome of
`toml::from_str` on those contents (`none` = malformed TOML).  The
repository's own logic — the whitespace short-circuit and the typed
walk — is embedded verbatim. -/
def read_gauge_config_file (contents : Option String) (parsed : Option TomlValue) :
    Except String (List GaugeDefinition) :=
  match contents with
  | none => .error "failed to read gauge config file"
  | some c =>
    if rustTrim c = "" then .ok []
    else
      match parsed with
      | none => .error "failed to parse gauge config file"
      | some v => parse_typed_gauge_configs v

/-! ### The registry (`log_metrics.rs`) -/

/-- A recorder behind the `FDBMetric` capability: success or a structured
error.  (The instrument writes of concrete recorders are modelled by
their own `record` functions above; for the registry dispatch only the
outcome matters.) -/
def Recorder := Event → List (String × String) → Except String Unit

/-- `struct LogMetrics`. -/
structure LogMetrics where
  metrics : List Recorder

/-- The dispatch loop of `LogMetrics::record`, instrumented: besides the
result it returns, in order, the label set each invoked recorder was
given (the `?` makes the loop stop after the first failing recorder). -/
def dispatchAux : List Recorder → Event → List (String × String) →
    Except String Unit × List (List (String × String))
  | [], _, _ => (.ok (), [])
  | m :: rest, e, labels =>
    match m e labels with
    | .error msg => (.error msg, [labels])
    | .ok () =>
      let (r, log) := dispatchAux rest e labels
      (r, labels :: log)

/-- The `storage_labels` vector `LogMetrics::record` builds: always
`machine`, plus `Roles` when the event carries a string `Roles` field. -/
def registryLabels (trace_event : Event) (machine : String) : List (String × String) :=
  ("machine", machine) :: (match List.lookup "Roles" trace_event with
    | some (Json.str r) => [("Roles", r)]
    | _ => ([] : List (String × String)))

/-- `LogMetrics::record`: require a string `Machine`, optionally read a
string `Roles`, build the label set, dispatch to every metric. -/
def LogMetrics.record (lm : LogMetrics) (trace_event : Event) :
    Except String Unit × List (List (String × String)) :=
  match List.lookup "Machine" trace_event with
  | some (Json.str machine) =>
    dispatchAux lm.metrics trace_event (registryLabels trace_event machine)
  | _ => (.error "Missing or invalid Machine field", [])

/-! ### Spec-side definitions -/

/-- Largest `Time` value of a sample sequence (`0` for the empty
sequence, which the spec never evaluates). -/
def maxTime (samples : List (ℚ × ℚ)) : ℚ :=
  match samples with
  | [] => 0
  | s :: rest => rest.foldl (fun m t => max m t.1) s.1

/-- Following the spec's words (§8): "the emitted value equals the
arithmetic mean of all samples whose `time` is within
`[max_time - 15, max_time]`, where `max_time` is the largest `time` ever
observed for that label set".  Stated as its own definition so it can be
compared with the smoother the source implements. -/
def specWindowMean (samples : List (ℚ × ℚ)) : ℚ :=
  let m := maxTime samples
  let windowed := samples.filter (fun s => decide (m - 15 ≤ s.1) && decide (s.1 ≤ m))
  if windowed.length = 0 then 0
  else ((windowed.map Prod.snd).sum) / (windowed.length : ℚ)

/-- The smoother's per-key deque after a sequence of samples for one
label set (each step is exactly the shared push/pop loop). -/
def windowAfter (samples : List (ℚ × ℚ)) : List TimedSample :=
  samples.foldl (fun w s => stepWindow w s.1 s.2) []

/-- The value the smoother emits for the sample `x` arriving after
`samples`. -/
def emitAfter (samples : List (ℚ × ℚ)) (x : ℚ × ℚ) : ℚ :=
  windowMeanOrSample (stepWindow (windowAfter samples) x.1 x.2) x.2

/-- A raw `(time, value)` sample as a `TimedSample`. -/
def toTS (s : ℚ × ℚ) : TimedSample := ⟨s.1, s.2⟩

/-- Result projections for the smoothed recorders (the value written to
the instrument, and the smoother state to thread into the next call). -/
def emissionOfS (r : Except String (SmootherState × Option ℚ)) : Option ℚ :=
  match r with
  | .ok p => p.2
  | .error _ => none

/-- State projection; an error leaves the state untouched, but the
projection is only ever applied to successful results. -/
def stateOfS (r : Except String (SmootherState × Option ℚ))
    (fallback : SmootherState) : SmootherState :=
  match r with
  | .ok p => p.1
  | .error _ => fallback

/-! ## Claim C1: the rolling-window smoother versus the spec's window -/

theorem windowAfter_append_one (l : List (ℚ × ℚ)) (x : ℚ × ℚ) :
    windowAfter (l ++ [x]) = stepWindow (windowAfter l) x.1 x.2 := by
  simp [windowAfter, List.foldl_append]

theorem dropWhile_lt_eq_filter_of_sorted (c : ℚ) :
    ∀ M : List TimedSample, M.Pairwise (fun a b => a.time ≤ b.time) →
      M.dropWhile (fun s => decide (s.time < c)) = M.filter (fun s => decide (c ≤ s.time)) := by
  intro M
  induction M with
  | nil => intro _; rfl
  | cons a M ih =>
    intro hp
    rw [List.pairwise_cons] at hp
    by_cases h : a.time < c
    · rw [List.dropWhile_cons, List.filter_cons, if_pos (decide_eq_true h),
        if_neg (by simp [not_le.mpr h])]
      exact ih hp.2
    · push_neg at h
      rw [List.dropWhile_cons, List.filter_cons, if_neg (by simp [not_lt.mpr h]),
        if_pos (decide_eq_true h)]
      rw [List.filter_eq_self.mpr (fun b hb => decide_eq_true (le_trans h (hp.1 b hb)))]

theorem stepWindow_eq_filter (w : List TimedSample) (t v : ℚ)
    (hsorted : (w ++ [TimedSample.mk t v]).Pairwise (fun a b => a.time ≤ b.time)) :
    stepWindow w t v =
      (w ++ [TimedSample.mk t v]).filter (fun s => decide (t - 15 ≤ s.time)) := by
  have hpred : (fun s : TimedSample => decide (ROLLING_WINDOW_SECONDS < t - s.time)) =
      (fun s : TimedSample => decide (s.time < t - 15)) := by
    funext s
    apply decide_eq_decide.mpr
    constructor
    · intro h; simp only [ROLLING_WINDOW_SECONDS] at h; linarith
    · intro h; simp only [ROLLING_WINDOW_SECONDS]; linarith
  rw [stepWindow, hpred]
  exact dropWhile_lt_eq_filter_of_sorted (t - 15) _ hsorted

theorem filter_map_toTS (c : ℚ) (L : List (ℚ × ℚ)) :
    (L.map toTS).filter (fun s => decide (c ≤ s.time)) =
      (L.filter (fun s => decide (c ≤ s.1))).map toTS := by
  induction L with
  | nil => rfl
  | cons a L ih =>
    simp only [List.map_cons, List.filter_cons, toTS]
    by_cases h : c ≤ a.1
    · simp [h, ih, toTS]
    · simp [h, ih, toTS]

/-- The window invariant: for samples with non-decreasing times, the
deque holds exactly the samples within 15 seconds of the newest one. -/
theorem windowAfter_eq_filter :
    ∀ (l : List (ℚ × ℚ)) (x : ℚ × ℚ),
      (l ++ [x]).Pairwise (fun a b => a.1 ≤ b.1) →
      windowAfter (l ++ [x]) =
        ((l ++ [x]).filter (fun s => decide (x.1 - 15 ≤ s.1))).map toTS := by
  intro l
  induction l using List.reverseRecOn with
  | nil =>
    intro x _
    have hx : ¬ x.1 < x.1 - 15 := by linarith
    simp [windowAfter, stepWindow, ROLLING_WINDOW_SECONDS, toTS, show ¬ (15:ℚ) < x.1 - x.1 by
      linarith]
  | append_singleton l y ih =>
    intro x hsorted
    have hsub : ((l ++ [y]).Pairwise (fun a b => a.1 ≤ b.1)) :=
      List.Pairwise.sublist (List.sublist_append_left _ _) hsorted
    have hyx : y.1 ≤ x.1 := by
      rw [List.pairwise_append] at hsorted
      exact hsorted.2.2 y (by simp) x (by simp)
    have hallx : ∀ s ∈ l ++ [y], s.1 ≤ x.1 := by
      rw [List.pairwise_append] at hsorted
      intro s hs
      exact hsorted.2.2 s hs x (by simp)
    rw [windowAfter_append_one, ih y hsub]
    set M := ((l ++ [y]).filter (fun s => decide (y.1 - 15 ≤ s.1))).map toTS with hM
    have hMsorted : M.Pairwise (fun a b => a.time ≤ b.time) := by
      rw [hM, List.pairwise_map]
      exact List.Pairwise.filter _ hsub
    have hMx : (M ++ [TimedSample.mk x.1 x.2]).Pairwise (fun a b => a.time ≤ b.time) := by
      rw [List.pairwise_append]
      refine ⟨hMsorted, List.pairwise_singleton _ _, ?_⟩
      intro a ha b hb
      simp only [List.mem_singleton] at hb
      subst hb
      rw [hM] at ha
      rcases List.mem_map.mp ha with ⟨s, hs, rfl⟩
      exact hallx s (List.mem_of_mem_filter hs)
    rw [stepWindow_eq_filter _ _ _ hMx]
    rw [List.filter_append]
    have hxkeep : (([TimedSample.mk x.1 x.2]).filter
        (fun s => decide (x.1 - 15 ≤ s.time))) = [TimedSample.mk x.1 x.2] := by
      simp [show x.1 - 15 ≤ x.1 by linarith]
    rw [hxkeep, hM, filter_map_toTS, List.filter_filter]
    have hcollapse : ∀ s ∈ l ++ [y],
        (decide (x.1 - 15 ≤ s.1) && decide (y.1 - 15 ≤ s.1)) = decide (x.1 - 15 ≤ s.1) := by
      intro s _
      by_cases h : x.1 - 15 ≤ s.1
      · have : y.1 - 15 ≤ s.1 := by linarith
        simp [h, this]
      · simp [h]
    rw [List.filter_congr hcollapse]
    have : ((l ++ [y]) ++ [x]).filter (fun s => decide (x.1 - 15 ≤ s.1)) =
        ((l ++ [y]).filter (fun s => decide (x.1 - 15 ≤ s.1))) ++ [x] := by
      rw [List.filter_append]
      simp [show x.1 - 15 ≤ x.1 by linarith]
    rw [this, List.map_append]
    rfl

theorem foldl_max_le (a : ℚ) :
    ∀ (L : List (ℚ × ℚ)) (init : ℚ), init ≤ a → (∀ s ∈ L, s.1 ≤ a) →
      L.foldl (fun m t => max m t.1) init ≤ a := by
  intro L
  induction L with
  | nil => intro init h _; exact h
  | cons s L ih =>
    intro init h hall
    simp only [List.foldl_cons]
    exact ih _ (max_le h (hall s (by simp))) (fun u hu => hall u (by simp [hu]))

theorem maxTime_append_last (l : List (ℚ × ℚ)) (x : ℚ × ℚ)
    (hall : ∀ s ∈ l, s.1 ≤ x.1) : maxTime (l ++ [x]) = x.1 := by
  cases l with
  | nil => simp [maxTime]
  | cons s l =>
    simp only [List.cons_append, maxTime, List.foldl_append, List.foldl_cons, List.foldl_nil]
    have h1 : (l.foldl (fun m t => max m t.1) s.1) ≤ x.1 :=
      foldl_max_le x.1 l s.1 (hall s (by simp)) (fun u hu => hall u (by simp [hu]))
    exact max_eq_right h1

/-- C1, amended: for every smoothed recorder's shared rolling-window
smoother and every sample sequence for a fixed label set **whose `Time`
values arrive in non-decreasing order**, the value emitted after each
sample equals the arithmetic mean of exactly those samples whose time
lies within `[max_time - 15, max_time]` (here `max_time` is the largest
time observed, which is the newest sample's time).  For out-of-order
sequences the equation fails (`smoother_out_of_order_cex`): the code
prunes relative to the current sample's time, not the maximum. -/
theorem smoother_rolling_window_spec_mean (l : List (ℚ × ℚ)) (x : ℚ × ℚ)
    (hsorted : (l ++ [x]).Pairwise (fun a b => a.1 ≤ b.1)) :
    emitAfter l x = specWindowMean (l ++ [x]) := by
  have hallx : ∀ s ∈ l ++ [x], s.1 ≤ x.1 := by
    intro s hs
    rcases List.mem_append.mp hs with h | h
    · rw [List.pairwise_append] at hsorted
      exact hsorted.2.2 s h x (by simp)
    · simp only [List.mem_singleton] at h; subst h; exact le_refl _
  have hW : stepWindow (windowAfter l) x.1 x.2 =
      ((l ++ [x]).filter (fun s => decide (x.1 - 15 ≤ s.1))).map toTS := by
    rw [← windowAfter_append_one]
    exact windowAfter_eq_filter l x hsorted
  have hmax : maxTime (l ++ [x]) = x.1 :=
    maxTime_append_last l x (fun s hs => hallx s (by simp [hs]))
  have hfilter : (l ++ [x]).filter
      (fun s => decide (maxTime (l ++ [x]) - 15 ≤ s.1) && decide (s.1 ≤ maxTime (l ++ [x]))) =
      (l ++ [x]).filter (fun s => decide (x.1 - 15 ≤ s.1)) := by
    apply List.filter_congr
    intro s hs
    rw [hmax]
    simp [hallx s hs]
  have hmem : toTS x ∈ ((l ++ [x]).filter (fun s => decide (x.1 - 15 ≤ s.1))).map toTS := by
    apply List.mem_map_of_mem
    apply List.mem_filter.mpr
    exact ⟨by simp, decide_eq_true (by linarith)⟩
  rw [emitAfter, hW, specWindowMean, windowMeanOrSample]
  set F := (l ++ [x]).filter (fun s => decide (x.1 - 15 ≤ s.1)) with hF
  have hlen : (F.map toTS).length = F.length := List.length_map _ _
  have hne : (F.map toTS).length ≠ 0 := by
    intro h0
    rw [List.length_eq_zero] at h0
    rw [h0] at hmem
    exact (List.not_mem_nil _) hmem
  rw [if_neg hne]
  rw [hfilter]
  have hne2 : F.length ≠ 0 := by rw [← hlen]; exact hne
  rw [if_neg hne2]
  have hvals : (F.map toTS).map TimedSample.value = F.map Prod.snd := by
    rw [List.map_map]; rfl
  rw [hvals, hlen]

/-- Witness for C1's amended theorem at a concrete sorted two-sample
sequence. -/
theorem smoother_rolling_window_spec_mean_witness :
    ([((100 : ℚ), (10 : ℚ))] ++ [((105 : ℚ), (20 : ℚ))]).Pairwise (fun a b => a.1 ≤ b.1) ∧
    emitAfter [((100 : ℚ), (10 : ℚ))] ((105 : ℚ), (20 : ℚ)) =
      specWindowMean ([((100 : ℚ), (10 : ℚ))] ++ [((105 : ℚ), (20 : ℚ))]) :=
  ⟨by decide, smoother_rolling_window_spec_mean [((100 : ℚ), (10 : ℚ))]
    ((105 : ℚ), (20 : ℚ)) (by decide)⟩

/-! Evaluation lemmas for the concrete decimal strings the claims feed
through `parse::<f64>` (kernel reduction is stopped by rational
normalisation, so the raw parse shape is established by `rfl` and the
arithmetic discharged by `norm_num`). -/

theorem parseF64_zero : parseF64 "0" = some 0 := by
  have h : parseF64 "0" = some (1 * (((0 : ℕ) : ℚ) + ((0 : ℕ) : ℚ) / (10 : ℚ) ^ (0 : ℕ))) := rfl
  rw [h]; norm_num

theorem parseF64_two : parseF64 "2" = some 2 := by
  have h : parseF64 "2" = some (1 * (((2 : ℕ) : ℚ) + ((0 : ℕ) : ℚ) / (10 : ℚ) ^ (0 : ℕ))) := rfl
  rw [h]; norm_num

theorem parseF64_five : parseF64 "5" = some 5 := by
  have h : parseF64 "5" = some (1 * (((5 : ℕ) : ℚ) + ((0 : ℕ) : ℚ) / (10 : ℚ) ^ (0 : ℕ))) := rfl
  rw [h]; norm_num

theorem parseF64_hundred : parseF64 "100" = some 100 := by
  have h : parseF64 "100" =
      some (1 * (((100 : ℕ) : ℚ) + ((0 : ℕ) : ℚ) / (10 : ℚ) ^ (0 : ℕ))) := rfl
  rw [h]; norm_num

theorem parseF64_fortytwo : parseF64 "42" = some 42 := by
  have h : parseF64 "42" =
      some (1 * (((42 : ℕ) : ℚ) + ((0 : ℕ) : ℚ) / (10 : ℚ) ^ (0 : ℕ))) := rfl
  rw [h]; norm_num

theorem parseF64_one_dot_zero : parseF64 "1.0" = some 1 := by
  have h : parseF64 "1.0" =
      some (1 * (((1 : ℕ) : ℚ) + ((0 : ℕ) : ℚ) / (10 : ℚ) ^ (1 : ℕ))) := rfl
  rw [h]; norm_num

/-- Shape of a successful `SimpleFDBGauge::record` on a matching event:
the smoother window for the label key is stepped and its mean emitted. -/
theorem simple_gauge_record_emit (g : SimpleFDBGauge) (st : SmootherState) (e : Event)
    (labels : List (String × String)) (vs ts : String) (x t : ℚ)
    (hT : get_trace_field e "Type" = .ok g.gauge_impl.trace_type)
    (hv : get_trace_field e g.gauge_impl.field_name = .ok vs)
    (hx : parseF64 vs = some x)
    (hts : get_trace_field e "Time" = .ok ts)
    (ht : parseF64 ts = some t) :
    g.record st e labels =
      .ok (updateSmoother st (from_labels labels)
        (stepWindow (st (from_labels labels)) t x),
        some (windowMeanOrSample (stepWindow (st (from_labels labels)) t x) x)) := by
  simp [SimpleFDBGauge.record, hT, hv, hx, hts, ht]

/-- C1 counterexample: `SimpleFDBGauge` fed two matching events whose
`Time` values arrive out of order (100 then 5).  The second call emits
the mean of both samples, `1`, while the spec's window
`[max_time - 15, max_time] = [85, 100]` holds only the first sample, so
the spec's mean is `0`. -/
theorem smoother_out_of_order_cex :
    emissionOfS (SimpleFDBGauge.record ⟨⟨"SM", "V"⟩⟩
      (stateOfS (SimpleFDBGauge.record ⟨⟨"SM", "V"⟩⟩ emptySmoother
          [("Type", Json.str "SM"), ("V", Json.str "0"), ("Time", Json.str "100")] [])
        emptySmoother)
      [("Type", Json.str "SM"), ("V", Json.str "2"), ("Time", Json.str "5")] [])
      = some 1
    ∧ specWindowMean [((100 : ℚ), (0 : ℚ)), ((5 : ℚ), (2 : ℚ))] = 0
    ∧ (1 : ℚ) ≠ 0 := by
  have hw1 : stepWindow [] 100 0 = [TimedSample.mk 100 0] := by
    rw [stepWindow]
    norm_num [ROLLING_WINDOW_SECONDS, List.dropWhile]
  have hrec1 : SimpleFDBGauge.record ⟨⟨"SM", "V"⟩⟩ emptySmoother
      [("Type", Json.str "SM"), ("V", Json.str "0"), ("Time", Json.str "100")] [] =
      .ok (updateSmoother emptySmoother (from_labels [])
        (stepWindow (emptySmoother (from_labels [])) 100 0),
        some (windowMeanOrSample (stepWindow (emptySmoother (from_labels [])) 100 0) 0)) :=
    simple_gauge_record_emit _ _ _ _ "0" "100" 0 100 rfl rfl parseF64_zero rfl parseF64_hundred
  have hst1 : stateOfS (SimpleFDBGauge.record ⟨⟨"SM", "V"⟩⟩ emptySmoother
      [("Type", Json.str "SM"), ("V", Json.str "0"), ("Time", Json.str "100")] [])
      emptySmoother (from_labels ([] : List (String × String))) = [TimedSample.mk 100 0] := by
    rw [hrec1]
    show updateSmoother emptySmoother (from_labels []) _ (from_labels []) = _
    rw [updateSmoother, if_pos rfl]
    show stepWindow [] 100 0 = _
    exact hw1
  have hw2 : stepWindow [TimedSample.mk 100 0] 5 2 =
      [TimedSample.mk 100 0, TimedSample.mk 5 2] := by
    rw [stepWindow]
    norm_num [ROLLING_WINDOW_SECONDS, List.dropWhile]
  have hrec2 := simple_gauge_record_emit (SimpleFDBGauge.mk ⟨"SM", "V"⟩)
    (stateOfS (SimpleFDBGauge.record ⟨⟨"SM", "V"⟩⟩ emptySmoother
        [("Type", Json.str "SM"), ("V", Json.str "0"), ("Time", Json.str "100")] [])
      emptySmoother)
    [("Type", Json.str "SM"), ("V", Json.str "2"), ("Time", Json.str "5")] [] "2" "5" 2 5
    rfl rfl parseF64_two rfl parseF64_five
  refine ⟨?_, ?_, by norm_num⟩
  · rw [hrec2]
    rw [hst1, hw2]
    show some (windowMeanOrSample [TimedSample.mk 100 0, TimedSample.mk 5 2] 2) = some 1
    show some (windowMeanOrSample [TimedSample.mk 100 0, TimedSample.mk 5 2] 2) = some 1
    rw [windowMeanOrSample]
    norm_num
  · rw [specWindowMean]
    have hmax : maxTime [((100 : ℚ), (0 : ℚ)), ((5 : ℚ), (2 : ℚ))] = 100 := by
      rw [maxTime]
      norm_num
    rw [hmax]
    norm_num [List.filter]

/-! ## Claim C2: token parsing of the rate and total counters -/

/-- Shape of a successful `RateCounterFDBGauge::record`: the first
space-separated token of the counter field is the sample. -/
theorem rate_counter_record_emit (g : RateCounterFDBGauge) (st : SmootherState)
    (e : Event) (labels : List (String × String)) (vs tok ts : String) (x t : ℚ)
    (hT : get_trace_field e "Type" = .ok g.gauge_impl.trace_type)
    (hv : get_trace_field e g.gauge_impl.field_name = .ok vs)
    (htok : (splitSpaces vs).head? = some tok)
    (hx : parseF64 tok = some x)
    (hts : get_trace_field e "Time" = .ok ts)
    (ht : parseF64 ts = some t) :
    g.record st e labels =
      .ok (updateSmoother st (from_labels labels)
        (stepWindow (st (from_labels labels)) t x),
        some (windowMeanOrSample (stepWindow (st (from_labels labels)) t x) x)) := by
  simp [RateCounterFDBGauge.record, hT, hv, htok, hx, hts, ht]

/-- The total counter fails with the structured `Malformed` error when
token 2 does not exist. -/
theorem total_counter_record_malformed (g : TotalCounterFDBGauge) (e : Event)
    (labels : List (String × String)) (vs : String)
    (hT : get_trace_field e "Type" = .ok g.gauge_impl.trace_type)
    (hv : get_trace_field e g.gauge_impl.field_name = .ok vs)
    (hlen : (splitSpaces vs).length < 3) :
    g.record e labels = .error ("Malformed " ++ g.gauge_impl.field_name ++ " counter") := by
  have hnone : (splitSpaces vs)[2]? = none := List.getElem?_eq_none (by omega)
  simp [TotalCounterFDBGauge.record, hT, hv, hnone]

/-- Shape of a successful `TotalCounterFDBGauge::record`: token 2 of the
counter field is emitted. -/
theorem total_counter_record_emit (g : TotalCounterFDBGauge) (e : Event)
    (labels : List (String × String)) (vs tok : String) (x : ℚ)
    (hT : get_trace_field e "Type" = .ok g.gauge_impl.trace_type)
    (hv : get_trace_field e g.gauge_impl.field_name = .ok vs)
    (htok : (splitSpaces vs)[2]? = some tok)
    (hx : parseF64 tok = some x) :
    g.record e labels = .ok (some x) := by
  simp [TotalCounterFDBGauge.record, hT, hv, htok, hx]

/-- C2, amended: when the event's `Type` matches, the **total** counter
returns the structured `Malformed <field> counter` error exactly when the
field's value has fewer than three space-separated tokens, and parses
token 2 as a float otherwise; the **rate** counter needs only token 0: it
parses token 0 as a float and succeeds regardless of the token count
(`rate_counter_short_token_cex` shows success on a one-token value, where
the claim demands an error). -/
theorem counter_token_parsing :
    (∀ (g : TotalCounterFDBGauge) (e : Event) (labels : List (String × String)) (vs : String),
      get_trace_field e "Type" = .ok g.gauge_impl.trace_type →
      get_trace_field e g.gauge_impl.field_name = .ok vs →
      (splitSpaces vs).length < 3 →
      g.record e labels = .error ("Malformed " ++ g.gauge_impl.field_name ++ " counter"))
    ∧ (∀ (g : TotalCounterFDBGauge) (e : Event) (labels : List (String × String))
        (vs tok : String) (x : ℚ),
      get_trace_field e "Type" = .ok g.gauge_impl.trace_type →
      get_trace_field e g.gauge_impl.field_name = .ok vs →
      (splitSpaces vs)[2]? = some tok →
      parseF64 tok = some x →
      g.record e labels = .ok (some x))
    ∧ (∀ (g : RateCounterFDBGauge) (st : SmootherState) (e : Event)
        (labels : List (String × String)) (vs tok ts : String) (x t : ℚ),
      get_trace_field e "Type" = .ok g.gauge_impl.trace_type →
      get_trace_field e g.gauge_impl.field_name = .ok vs →
      (splitSpaces vs).head? = some tok →
      parseF64 tok = some x →
      get_trace_field e "Time" = .ok ts →
      parseF64 ts = some t →
      g.record st e labels =
        .ok (updateSmoother st (from_labels labels)
          (stepWindow (st (from_labels labels)) t x),
          some (windowMeanOrSample (stepWindow (st (from_labels labels)) t x) x))) := by
  refine ⟨?_, ?_, ?_⟩
  · intro g e labels vs hT hv hlen
    exact total_counter_record_malformed g e labels vs hT hv hlen
  · intro g e labels vs tok x hT hv htok hx
    exact total_counter_record_emit g e labels vs tok x hT hv htok hx
  · intro g st e labels vs tok ts x t hT hv htok hx hts ht
    exact rate_counter_record_emit g st e labels vs tok ts x t hT hv htok hx hts ht

/-- Witness for C2's amended theorem at concrete events. -/
theorem counter_token_parsing_witness :
    TotalCounterFDBGauge.record ⟨⟨"SM", "B"⟩⟩
      [("Type", Json.str "SM"), ("B", Json.str "1 2")] [] =
      .error "Malformed B counter"
    ∧ TotalCounterFDBGauge.record ⟨⟨"SM", "B"⟩⟩
      [("Type", Json.str "SM"), ("B", Json.str "1 2 5")] [] = .ok (some 5)
    ∧ RateCounterFDBGauge.record ⟨⟨"SM", "B"⟩⟩ emptySmoother
      [("Type", Json.str "SM"), ("B", Json.str "42 0 0"), ("Time", Json.str "5")] [] =
      .ok (updateSmoother emptySmoother (from_labels [])
        (stepWindow (emptySmoother (from_labels [])) 5 42),
        some (windowMeanOrSample (stepWindow (emptySmoother (from_labels [])) 5 42) 42)) := by
  refine ⟨?_, ?_, ?_⟩
  · exact counter_token_parsing.1 ⟨⟨"SM", "B"⟩⟩ _ [] "1 2" rfl rfl (by decide)
  · exact counter_token_parsing.2.1 ⟨⟨"SM", "B"⟩⟩ _ [] "1 2 5" "5" 5 rfl rfl rfl parseF64_five
  · exact counter_token_parsing.2.2 ⟨⟨"SM", "B"⟩⟩ emptySmoother _ [] "42 0 0" "42" "5" 42 5
      rfl rfl rfl parseF64_fortytwo rfl parseF64_five

/-- C2 counterexample: a rate counter fed a matching event whose counter
field holds a single token (`"42"`, fewer than three): `record` succeeds
and emits 42 instead of returning the structured error the claim
demands for both counters. -/
theorem rate_counter_short_token_cex :
    (splitSpaces "42").length = 1
    ∧ (RateCounterFDBGauge.record ⟨⟨"PM", "T"⟩⟩ emptySmoother
        [("Type", Json.str "PM"), ("T", Json.str "42"), ("Time", Json.str "1.0")] []).isOk = true
    ∧ emissionOfS (RateCounterFDBGauge.record ⟨⟨"PM", "T"⟩⟩ emptySmoother
        [("Type", Json.str "PM"), ("T", Json.str "42"), ("Time", Json.str "1.0")] []) =
      some 42 := by
  have hrec := rate_counter_record_emit ⟨⟨"PM", "T"⟩⟩ emptySmoother
    [("Type", Json.str "PM"), ("T", Json.str "42"), ("Time", Json.str "1.0")] []
    "42" "42" "1.0" 42 1 rfl rfl rfl parseF64_fortytwo rfl parseF64_one_dot_zero
  have hw : stepWindow [] 1 42 = [TimedSample.mk 1 42] := by
    rw [stepWindow]
    norm_num [ROLLING_WINDOW_SECONDS, List.dropWhile]
  refine ⟨by decide, ?_, ?_⟩
  · rw [hrec]; rfl
  · rw [hrec]
    show some (windowMeanOrSample (stepWindow (emptySmoother (from_labels [])) 1 42) 42) = some 42
    show some (windowMeanOrSample (stepWindow [] 1 42) 42) = some 42
    rw [hw, windowMeanOrSample]
    norm_num

/-! ## Claim C8: the registry requires `Machine` and labels every dispatch -/

theorem dispatchAux_labels (e : Event) (L : List (String × String)) :
    ∀ ms : List Recorder, ∀ ls ∈ (dispatchAux ms e L).2, ls = L := by
  intro ms
  induction ms with
  | nil => intro ls h; exact absurd h (List.not_mem_nil ls)
  | cons m rest ih =>
    intro ls h
    rw [dispatchAux] at h
    cases hm : m e L with
    | error msg =>
      rw [hm] at h
      simp only [List.mem_singleton] at h
      exact h
    | ok u =>
      cases u
      rw [hm] at h
      simp only [List.mem_cons] at h
      rcases h with h | h
      · exact h
      · exact ih ls h

theorem dispatchAux_all_ok (e : Event) (L : List (String × String)) :
    ∀ ms : List Recorder, (∀ m ∈ ms, m e L = .ok ()) →
      dispatchAux ms e L = (.ok (), List.replicate ms.length L) := by
  intro ms
  induction ms with
  | nil => intro _; rfl
  | cons m rest ih =>
    intro h
    rw [dispatchAux, h m (by simp), ih (fun m2 hm2 => h m2 (by simp [hm2]))]
    rfl

/-- C8, amended: when the event's `Machine` field is absent or not a
string, `LogMetrics::record` fails with the structured error naming the
field and invokes no recorder.  When `Machine` is a string, every
recorder **that is invoked** receives the label set
`machine=<Machine>` (plus `Roles=<Roles>` when a string `Roles` field is
present); when every recorder succeeds on that label set, all of them
are invoked — but dispatch stops at the first failing recorder
(`registry_short_circuit_cex`), so "every recorder is invoked" does not
hold unconditionally. -/
theorem registry_machine_label_dispatch :
    (∀ (lm : LogMetrics) (e : Event),
      (List.lookup "Machine" e = none ∨ List.lookup "Machine" e = some Json.nonString) →
      lm.record e = (.error "Missing or invalid Machine field", []))
    ∧ (∀ (lm : LogMetrics) (e : Event) (machine : String),
      List.lookup "Machine" e = some (Json.str machine) →
      (∀ ls ∈ (lm.record e).2, ls = registryLabels e machine)
      ∧ ("machine", machine) ∈ registryLabels e machine
      ∧ (∀ roles : String, List.lookup "Roles" e = some (Json.str roles) →
          ("Roles", roles) ∈ registryLabels e machine)
      ∧ ((∀ m ∈ lm.metrics, m e (registryLabels e machine) = .ok ()) →
          (lm.record e).1 = .ok () ∧ (lm.record e).2.length = lm.metrics.length)) := by
  constructor
  · intro lm e h
    rcases h with h | h <;> simp [LogMetrics.record, h]
  · intro lm e machine h
    have hrec : lm.record e = dispatchAux lm.metrics e (registryLabels e machine) := by
      simp [LogMetrics.record, h]
    refine ⟨?_, by simp [registryLabels], ?_, ?_⟩
    · rw [hrec]
      exact dispatchAux_labels e _ lm.metrics
    · intro roles hr
      simp [registryLabels, hr]
    · intro hall
      rw [hrec, dispatchAux_all_ok e _ lm.metrics hall]
      simp

/-- Witness for C8's amended theorem at concrete events and a one-element
recorder list. -/
theorem registry_machine_label_dispatch_witness :
    LogMetrics.record ⟨[fun _ _ => .ok ()]⟩ [("Type", Json.str "SM")] =
      (.error "Missing or invalid Machine field", [])
    ∧ (∀ ls ∈ (LogMetrics.record ⟨[fun _ _ => .ok ()]⟩
        [("Machine", Json.str "10.0.0.1"), ("Roles", Json.str "SS")]).2,
        ls = registryLabels [("Machine", Json.str "10.0.0.1"), ("Roles", Json.str "SS")]
          "10.0.0.1")
    ∧ ("machine", "10.0.0.1") ∈
        registryLabels [("Machine", Json.str "10.0.0.1"), ("Roles", Json.str "SS")] "10.0.0.1"
    ∧ ("Roles", "SS") ∈
        registryLabels [("Machine", Json.str "10.0.0.1"), ("Roles", Json.str "SS")] "10.0.0.1" := by
  have h2 := registry_machine_label_dispatch.2 ⟨[fun _ _ => .ok ()]⟩
    [("Machine", Json.str "10.0.0.1"), ("Roles", Json.str "SS")] "10.0.0.1" rfl
  exact ⟨registry_machine_label_dispatch.1 ⟨[fun _ _ => .ok ()]⟩ [("Type", Json.str "SM")]
    (Or.inl rfl), h2.1, h2.2.1, h2.2.2.1 "SS" rfl⟩

/-- C8 counterexample: with a first recorder that fails, the second
recorder is never invoked even though `Machine` is a string — the
dispatch log holds one label set while two recorders are registered. -/
theorem registry_short_circuit_cex :
    (LogMetrics.record ⟨[fun _ _ => .error "boom", fun _ _ => .ok ()]⟩
      [("Machine", Json.str "m1")]).2 = [[("machine", "m1")]]
    ∧ ([fun _ _ => .error "boom", fun _ _ => .ok ()] : List Recorder).length = 2 := by
  exact ⟨rfl, rfl⟩

/-! ## Claim C9: non-matching events touch nothing -/

theorem simple_gauge_record_mismatch (g : SimpleFDBGauge) (st : SmootherState) (e : Event)
    (labels : List (String × String)) (t : String)
    (hT : get_trace_field e "Type" = .ok t) (hne : t ≠ g.gauge_impl.trace_type) :
    g.record st e labels = .ok (st, none) := by
  simp [SimpleFDBGauge.record, hT, hne]

theorem rate_counter_record_mismatch (g : RateCounterFDBGauge) (st : SmootherState)
    (e : Event) (labels : List (String × String)) (t : String)
    (hT : get_trace_field e "Type" = .ok t) (hne : t ≠ g.gauge_impl.trace_type) :
    g.record st e labels = .ok (st, none) := by
  simp [RateCounterFDBGauge.record, hT, hne]

theorem elapsed_rate_record_mismatch (g : ElapsedRateFDBGauge) (st : SmootherState)
    (e : Event) (labels : List (String × String)) (t : String)
    (hT : get_trace_field e "Type" = .ok t) (hne : t ≠ g.gauge_impl.trace_type) :
    g.record st e labels = .ok (st, none) := by
  simp [ElapsedRateFDBGauge.record, hT, hne]

theorem total_counter_record_mismatch (g : TotalCounterFDBGauge) (e : Event)
    (labels : List (String × String)) (t : String)
    (hT : get_trace_field e "Type" = .ok t) (hne : t ≠ g.gauge_impl.trace_type) :
    g.record e labels = .ok none := by
  simp [TotalCounterFDBGauge.record, hT, hne]

/-- C9: for every recorder with a configured trace type, `record` on an
event whose (present, string) `Type` does not match returns success,
emits nothing, and leaves the smoother state untouched; the histogram
recorder likewise skips the event when `Type` is not `Histogram`, or the
(present) `Group` or `Op` differ from the configured ones, or the
(present) `Unit` is not one of the three recognised spellings. -/
theorem record_type_mismatch_frame :
    (∀ (g : SimpleFDBGauge) (st : SmootherState) (e : Event)
        (labels : List (String × String)) (t : String),
      get_trace_field e "Type" = .ok t → t ≠ g.gauge_impl.trace_type →
      g.record st e labels = .ok (st, none))
    ∧ (∀ (g : RateCounterFDBGauge) (st : SmootherState) (e : Event)
        (labels : List (String × String)) (t : String),
      get_trace_field e "Type" = .ok t → t ≠ g.gauge_impl.trace_type →
      g.record st e labels = .ok (st, none))
    ∧ (∀ (g : ElapsedRateFDBGauge) (st : SmootherState) (e : Event)
        (labels : List (String × String)) (t : String),
      get_trace_field e "Type" = .ok t → t ≠ g.gauge_impl.trace_type →
      g.record st e labels = .ok (st, none))
    ∧ (∀ (g : TotalCounterFDBGauge) (e : Event) (labels : List (String × String)) (t : String),
      get_trace_field e "Type" = .ok t → t ≠ g.gauge_impl.trace_type →
      g.record e labels = .ok none)
    ∧ (∀ (g : HistogramPercentileFDBGauge) (e : Event) (labels : List (String × String))
        (t : String),
      get_trace_field e "Type" = .ok t → t ≠ "Histogram" →
      g.record e labels = .ok none)
    ∧ (∀ (g : HistogramPercentileFDBGauge) (e : Event) (labels : List (String × String))
        (grp : String),
      get_trace_field e "Type" = .ok "Histogram" →
      get_trace_field e "Group" = .ok grp → grp ≠ g.group →
      g.record e labels = .ok none)
    ∧ (∀ (g : HistogramPercentileFDBGauge) (e : Event) (labels : List (String × String))
        (op : String),
      get_trace_field e "Type" = .ok "Histogram" →
      get_trace_field e "Group" = .ok g.group →
      get_trace_field e "Op" = .ok op → op ≠ g.op →
      g.record e labels = .ok none)
    ∧ (∀ (g : HistogramPercentileFDBGauge) (e : Event) (labels : List (String × String))
        (u : String),
      get_trace_field e "Type" = .ok "Histogram" →
      get_trace_field e "Group" = .ok g.group →
      get_trace_field e "Op" = .ok g.op →
      get_trace_field e "Unit" = .ok u →
      u ≠ "milliseconds" → u ≠ "bytes" → u ≠ "count" →
      g.record e labels = .ok none) := by
  refine ⟨simple_gauge_record_mismatch, rate_counter_record_mismatch,
    elapsed_rate_record_mismatch, total_counter_record_mismatch, ?_, ?_, ?_, ?_⟩
  · intro g e labels t hT hne
    simp [HistogramPercentileFDBGauge.record, hT, hne]
  · intro g e labels grp hT hG hne
    simp [HistogramPercentileFDBGauge.record, hT, hG, hne]
  · intro g e labels op hT hG hO hne
    simp [HistogramPercentileFDBGauge.record, hT, hG, hO, hne]
  · intro g e labels u hT hG hO hU h1 h2 h3
    simp [HistogramPercentileFDBGauge.record, hT, hG, hO, hU, h1, h2, h3]

/-- Witness for C9 at concrete recorders and events. -/
theorem record_type_mismatch_frame_witness :
    SimpleFDBGauge.record ⟨⟨"SM", "V"⟩⟩ emptySmoother [("Type", Json.str "Other")] [] =
      .ok (emptySmoother, none)
    ∧ RateCounterFDBGauge.record ⟨⟨"PM", "T"⟩⟩ emptySmoother [("Type", Json.str "Other")] [] =
      .ok (emptySmoother, none)
    ∧ ElapsedRateFDBGauge.record ⟨⟨"PM", "C"⟩⟩ emptySmoother [("Type", Json.str "Other")] [] =
      .ok (emptySmoother, none)
    ∧ TotalCounterFDBGauge.record ⟨⟨"SM", "B"⟩⟩ [("Type", Json.str "Other")] [] = .ok none
    ∧ HistogramPercentileFDBGauge.record ⟨(1 : ℝ) / 2, "SS", "Read"⟩
        [("Type", Json.str "Other")] [] = .ok none
    ∧ HistogramPercentileFDBGauge.record ⟨(1 : ℝ) / 2, "SS", "Read"⟩
        [("Type", Json.str "Histogram"), ("Group", Json.str "CC")] [] = .ok none
    ∧ HistogramPercentileFDBGauge.record ⟨(1 : ℝ) / 2, "SS", "Read"⟩
        [("Type", Json.str "Histogram"), ("Group", Json.str "SS"),
          ("Op", Json.str "Write")] [] = .ok none
    ∧ HistogramPercentileFDBGauge.record ⟨(1 : ℝ) / 2, "SS", "Read"⟩
        [("Type", Json.str "Histogram"), ("Group", Json.str "SS"), ("Op", Json.str "Read"),
          ("Unit", Json.str "seconds")] [] = .ok none := by
  refine ⟨?_, ?_, ?_, ?_, ?_, ?_, ?_, ?_⟩
  · exact record_type_mismatch_frame.1 ⟨⟨"SM", "V"⟩⟩ emptySmoother _ [] "Other" rfl (by decide)
  · exact record_type_mismatch_frame.2.1 ⟨⟨"PM", "T"⟩⟩ emptySmoother _ [] "Other" rfl (by decide)
  · exact record_type_mismatch_frame.2.2.1 ⟨⟨"PM", "C"⟩⟩ emptySmoother _ [] "Other" rfl
      (by decide)
  · exact record_type_mismatch_frame.2.2.2.1 ⟨⟨"SM", "B"⟩⟩ _ [] "Other" rfl (by decide)
  · exact record_type_mismatch_frame.2.2.2.2.1 ⟨(1 : ℝ) / 2, "SS", "Read"⟩ _ [] "Other" rfl
      (by decide)
  · exact record_type_mismatch_frame.2.2.2.2.2.1 ⟨(1 : ℝ) / 2, "SS", "Read"⟩ _ [] "CC" rfl rfl
      (by decide)
  · exact record_type_mismatch_frame.2.2.2.2.2.2.1 ⟨(1 : ℝ) / 2, "SS", "Read"⟩ _ [] "Write"
      rfl rfl rfl (by decide)
  · exact record_type_mismatch_frame.2.2.2.2.2.2.2 ⟨(1 : ℝ) / 2, "SS", "Read"⟩ _ [] "seconds"
      rfl rfl rfl rfl (by decide) (by decide) (by decide)

/-! ## Claim C7: config-loader failure modes -/

/-- A percentile value `validate_percentile` rejects. -/
def badPercentile (f : TFloat) : Prop :=
  match f with
  | .finite q => q < 0 ∨ 1 < q
  | _ => True

theorem mapExcept_deserializeF64_floats :
    ∀ fs : List TFloat, mapExcept deserializeF64 (fs.map TomlValue.float) = .ok fs := by
  intro fs
  induction fs with
  | nil => rfl
  | cons f fs ih =>
    simp only [List.map_cons, mapExcept, deserializeF64, ih]

theorem mapExcept_validate_err :
    ∀ fs : List TFloat, (∃ f ∈ fs, badPercentile f) →
      ∃ msg, mapExcept validate_percentile fs = .error msg := by
  intro fs
  induction fs with
  | nil => intro h; rcases h with ⟨f, hf, _⟩; exact absurd hf (List.not_mem_nil f)
  | cons f fs ih =>
    intro h
    by_cases hf : ∃ msg, validate_percentile f = .error msg
    · rcases hf with ⟨msg, hmsg⟩
      exact ⟨msg, by rw [mapExcept, hmsg]⟩
    · have hok : ∃ q, validate_percentile f = .ok q := by
        cases hv : validate_percentile f with
        | error msg => exact absurd ⟨msg, hv⟩ hf
        | ok q => exact ⟨q, rfl⟩
      rcases hok with ⟨q, hq⟩
      have hfgood : ¬ badPercentile f := by
        intro hb
        cases f with
        | finite r =>
          rcases hb with hb | hb <;>
            simp [validate_percentile, not_and_or, not_le.mpr hb] at hq
        | nan => simp [validate_percentile] at hq
        | posInfinity => simp [validate_percentile] at hq
        | negInfinity => simp [validate_percentile] at hq
      have hrest : ∃ f2 ∈ fs, badPercentile f2 := by
        rcases h with ⟨f2, hf2, hb2⟩
        rcases List.mem_cons.mp hf2 with rfl | hf2
        · exact absurd hb2 hfgood
        · exact ⟨f2, hf2, hb2⟩
      rcases ih hrest with ⟨msg, hmsg⟩
      exact ⟨msg, by rw [mapExcept, hq, hmsg]⟩

theorem deserialize_percentiles_err (fs : List TFloat)
    (h : fs = [] ∨ ∃ f ∈ fs, badPercentile f) :
    ∃ msg, deserialize_percentiles (.array (fs.map TomlValue.float)) = .error msg := by
  rcases h with rfl | h
  · exact ⟨"percentiles list cannot be empty", rfl⟩
  · have hne : fs ≠ [] := by
      rcases h with ⟨f, hf, _⟩
      intro h0; rw [h0] at hf; exact (List.not_mem_nil f) hf
    rcases mapExcept_validate_err fs h with ⟨msg, hmsg⟩
    refine ⟨msg, ?_⟩
    rw [deserialize_percentiles, mapExcept_deserializeF64_floats]
    simp [List.isEmpty_iff, hne, hmsg]

theorem histEntryOfToml_bad_percentiles (entryKvs : List (String × TomlValue))
    (g o : String) (fs : List TFloat)
    (hg : getStringField entryKvs "group" = .ok g)
    (ho : getStringField entryKvs "op" = .ok o)
    (hp : List.lookup "percentiles" entryKvs = some (.array (fs.map TomlValue.float)))
    (hbad : fs = [] ∨ ∃ f ∈ fs, badPercentile f) :
    ∃ msg, histEntryOfToml (.table entryKvs) = .error msg := by
  rcases deserialize_percentiles_err fs hbad with ⟨msg, hmsg⟩
  exact ⟨msg, by simp [histEntryOfToml, hg, ho, hp, hmsg]⟩

/-- C7, amended: `read_gauge_config_file` fails on a missing file, on
malformed TOML, on a histogram entry whose percentiles are empty or
contain a value outside `[0, 1]` or a non-finite one, and on a config
table with no recognised section; an empty-or-whitespace file yields
success with zero definitions — but not *exactly* then: a recognised
section with an empty entry array also yields success with zero
definitions (`read_gauge_config_empty_section_cex`). -/
theorem read_gauge_config_failure_modes :
    (∀ parsed, read_gauge_config_file none parsed = .error "failed to read gauge config file")
    ∧ (∀ (s : String) parsed, rustTrim s = "" → read_gauge_config_file (some s) parsed = .ok [])
    ∧ (∀ s : String, rustTrim s ≠ "" →
        read_gauge_config_file (some s) none = .error "failed to parse gauge config file")
    ∧ (∀ (s : String) (entryKvs : List (String × TomlValue)) (g o : String) (fs : List TFloat),
        rustTrim s ≠ "" →
        getStringField entryKvs "group" = .ok g →
        getStringField entryKvs "op" = .ok o →
        List.lookup "percentiles" entryKvs = some (.array (fs.map TomlValue.float)) →
        (fs = [] ∨ ∃ f ∈ fs, badPercentile f) →
        ∃ msg, read_gauge_config_file (some s)
          (some (.table [("histogram_percentile_gauge", .array [.table entryKvs])])) =
          .error msg)
    ∧ (∀ (s : String) (kvs : List (String × TomlValue)), rustTrim s ≠ "" →
        (∀ p ∈ kvs, p.1 ≠ "histogram_percentile_gauge" ∧
          GaugeType.from_section_name p.1 = none) →
        read_gauge_config_file (some s) (some (.table kvs)) =
          .error "gauge config file did not contain any recognized sections") := by
  refine ⟨fun _ => rfl, ?_, ?_, ?_, ?_⟩
  · intro s parsed h
    simp [read_gauge_config_file, h]
  · intro s h
    simp [read_gauge_config_file, h]
  · intro s entryKvs g o fs hs hg ho hp hbad
    rcases histEntryOfToml_bad_percentiles entryKvs g o fs hg ho hp hbad with ⟨msg, hmsg⟩
    refine ⟨msg, ?_⟩
    simp [read_gauge_config_file, hs, parse_typed_gauge_configs, parseSections,
      mapExcept, hmsg]
  · intro s kvs hs hnone
    have hwalk : ∀ (kvs2 : List (String × TomlValue)) (gauges : List GaugeDefinition),
        (∀ p ∈ kvs2, p.1 ≠ "histogram_percentile_gauge" ∧
          GaugeType.from_section_name p.1 = none) →
        parseSections kvs2 gauges false = .ok (gauges, false) := by
      intro kvs2
      induction kvs2 with
      | nil => intro _ _; rfl
      | cons sec rest ih =>
        intro gauges h
        have hsec := h sec (by simp)
        rw [parseSections, if_neg hsec.1, hsec.2]
        exact ih gauges (fun p hp => h p (by simp [hp]))
    simp [read_gauge_config_file, hs, parse_typed_gauge_configs, hwalk kvs [] hnone]

/-- Witness for C7's amended theorem at concrete inputs. -/
theorem read_gauge_config_failure_modes_witness :
    read_gauge_config_file none none = .error "failed to read gauge config file"
    ∧ read_gauge_config_file (some "  ") none = .ok []
    ∧ read_gauge_config_file (some "x") none = .error "failed to parse gauge config file"
    ∧ (∃ msg, read_gauge_config_file (some "x")
        (some (.table [("histogram_percentile_gauge", .array [.table
          [("group", TomlValue.str "G"), ("op", TomlValue.str "O"),
            ("percentiles", .array [TomlValue.float (.finite 2)])]])])) = .error msg)
    ∧ read_gauge_config_file (some "x") (some (.table [("unrelated", TomlValue.int 1)])) =
        .error "gauge config file did not contain any recognized sections" := by
  refine ⟨read_gauge_config_failure_modes.1 none,
    read_gauge_config_failure_modes.2.1 "  " none (by decide),
    read_gauge_config_failure_modes.2.2.1 "x" (by decide), ?_, ?_⟩
  · exact read_gauge_config_failure_modes.2.2.2.1 "x"
      [("group", TomlValue.str "G"), ("op", TomlValue.str "O"),
        ("percentiles", .array [TomlValue.float (.finite 2)])]
      "G" "O" [.finite 2] (by decide) rfl rfl rfl
      (Or.inr ⟨.finite 2, by simp, Or.inr (by norm_num)⟩)
  · exact read_gauge_config_failure_modes.2.2.2.2 "x" [("unrelated", TomlValue.int 1)]
      (by decide) (by decide)

/-- C7 counterexample: a non-whitespace config consisting of one
recognised section with an empty entry array also succeeds with zero
definitions, refuting the "exactly when the file content is empty"
direction. -/
theorem read_gauge_config_empty_section_cex :
    read_gauge_config_file (some "simple_gauge = []")
      (some (.table [("simple_gauge", TomlValue.array [])])) = .ok []
    ∧ rustTrim "simple_gauge = []" ≠ "" := by
  exact ⟨rfl, by decide⟩

/-! ## Claim C6: histogram percentile expansion -/

theorem roundHalfEven_intCast (n : ℤ) : roundHalfEven ((n : ℚ)) = n := by
  rw [roundHalfEven]
  norm_num

theorem mapExcept_validate_ok :
    ∀ ps : List ℚ, (∀ p ∈ ps, 0 ≤ p ∧ p ≤ 1) →
      mapExcept validate_percentile (ps.map TFloat.finite) = .ok ps := by
  intro ps
  induction ps with
  | nil => intro _; rfl
  | cons p ps ih =>
    intro h
    have hp := h p (by simp)
    have hv : validate_percentile (TFloat.finite p) = .ok p := by
      rw [validate_percentile, if_neg (not_not_intro hp)]
    simp only [List.map_cons, mapExcept, hv,
      ih (fun q hq => h q (List.mem_cons_of_mem _ hq))]

theorem deserialize_percentiles_ok (ps : List ℚ) (hne : ps ≠ [])
    (hrange : ∀ p ∈ ps, 0 ≤ p ∧ p ≤ 1) :
    deserialize_percentiles
      (.array (ps.map (fun q => TomlValue.float (TFloat.finite q)))) = .ok ps := by
  have hmap : ps.map (fun q => TomlValue.float (TFloat.finite q)) =
      (ps.map TFloat.finite).map TomlValue.float := by
    rw [List.map_map]; rfl
  have hne2 : (ps.map TFloat.finite).isEmpty = false := by
    simp [List.isEmpty_iff, hne]
  simp only [deserialize_percentiles, hmap, mapExcept_deserializeF64_floats, hne2,
    Bool.false_eq_true, if_false]
  exact mapExcept_validate_ok ps hrange

/-- C6: a histogram entry with percentiles `ps` expands to exactly one
definition per percentile; a single percentile keeps the configured
`gauge_name` and `description` verbatim, and with more than one each
definition gets `_p…` appended to the name (trailing zeros trimmed, `.`
replaced by `_`) and ` (p…)` appended to the description.  Concretely,
percentile `0.995` yields the suffix `p99_5`, so base `latency` yields
`latency_p99_5`. -/
theorem histogram_percentile_expansion :
    (∀ (g o gn d : String) (ps : List ℚ), ps ≠ [] → (∀ p ∈ ps, 0 ≤ p ∧ p ≤ 1) →
      parse_typed_gauge_configs (.table [("histogram_percentile_gauge",
        .array [.table [("group", TomlValue.str g), ("op", TomlValue.str o),
          ("percentiles", .array (ps.map (fun q => TomlValue.float (TFloat.finite q)))),
          ("gauge_name", TomlValue.str gn), ("description", TomlValue.str d)]])]) =
        .ok (ps.map (fun p =>
          GaugeDefinition.histogramPercentile ⟨g, o, p,
            (if ps.length = 1 then gn else gn ++ "_" ++ percentile_suffix p),
            (if ps.length = 1 then d else d ++ " (p" ++ percentile_display p ++ ")")⟩)))
    ∧ percentile_suffix ((995 : ℚ) / 1000) = "p99_5"
    ∧ "latency" ++ "_" ++ percentile_suffix ((995 : ℚ) / 1000) = "latency_p99_5" := by
  have hsuffix : percentile_suffix ((995 : ℚ) / 1000) = "p99_5" := by
    have harg : ((995 : ℚ) / 1000 * 100) * 1000000 = ((99500000 : ℤ) : ℚ) := by norm_num
    have hfmt : formatFixed6 ((995 : ℚ) / 1000 * 100) = "99.500000" := by
      rw [formatFixed6, harg, roundHalfEven_intCast]
      rfl
    have hdisp : percentile_display ((995 : ℚ) / 1000) = "99.5" := by
      rw [percentile_display, hfmt]
      rfl
    rw [percentile_suffix, hdisp]
    rfl
  refine ⟨?_, hsuffix, by rw [hsuffix]; rfl⟩
  intro g o gn d ps hne hrange
  have hentry : histEntryOfToml (.table [("group", TomlValue.str g), ("op", TomlValue.str o),
      ("percentiles", .array (ps.map (fun q => TomlValue.float (TFloat.finite q)))),
      ("gauge_name", TomlValue.str gn), ("description", TomlValue.str d)]) =
      .ok ⟨g, o, ps, gn, d⟩ := by
    simp [histEntryOfToml, getStringField, List.lookup,
      deserialize_percentiles_ok ps hne hrange]
  rw [parse_typed_gauge_configs, parseSections]
  simp only [if_pos rfl]
  rw [show mapExcept histEntryOfToml [.table [("group", TomlValue.str g),
      ("op", TomlValue.str o),
      ("percentiles", .array (ps.map (fun q => TomlValue.float (TFloat.finite q)))),
      ("gauge_name", TomlValue.str gn), ("description", TomlValue.str d)]] =
      .ok [⟨g, o, ps, gn, d⟩] from by rw [mapExcept, hentry]; rfl]
  rw [parseSections]
  simp only [expandHistogramEntry, List.flatten, List.map_cons, List.map_nil,
    List.append_nil, List.nil_append]
  rfl

/-- Witness for C6's expansion theorem at a two-percentile entry. -/
theorem histogram_percentile_expansion_witness :
    parse_typed_gauge_configs (.table [("histogram_percentile_gauge",
      .array [.table [("group", TomlValue.str "G"), ("op", TomlValue.str "O"),
        ("percentiles", .array ([(0 : ℚ), 1].map (fun q => TomlValue.float (TFloat.finite q)))),
        ("gauge_name", TomlValue.str "base"), ("description", TomlValue.str "desc")]])]) =
      .ok ([(0 : ℚ), 1].map (fun p =>
        GaugeDefinition.histogramPercentile ⟨"G", "O", p,
          (if [(0 : ℚ), 1].length = 1 then "base"
            else "base" ++ "_" ++ percentile_suffix p),
          (if [(0 : ℚ), 1].length = 1 then "desc"
            else "desc" ++ " (p" ++ percentile_display p ++ ")")⟩)) :=
  histogram_percentile_expansion.1 "G" "O" "base" "desc" [0, 1] (by decide)
    (by intro p hp
        rcases List.mem_cons.mp hp with rfl | hp
        · exact ⟨le_refl 0, by norm_num⟩
        · rcases List.mem_cons.mp hp with rfl | hp
          · exact ⟨by norm_num, le_refl 1⟩
          · exact absurd hp (List.not_mem_nil p))

/-! ## Claims C3, C4, C10: properties of the percentile interpolator -/

theorem clampR_mono {x1 x2 lo hi : ℝ} (h : x1 ≤ x2) : clampR x1 lo hi ≤ clampR x2 lo hi :=
  max_le_max (le_refl lo) (min_le_min h (le_refl hi))

theorem le_clampR (x lo hi : ℝ) : lo ≤ clampR x lo hi := le_max_left lo _

theorem clampR_le_hi {lo hi : ℝ} (x : ℝ) (h : lo ≤ hi) : clampR x lo hi ≤ hi :=
  max_le h (min_le_right x hi)

theorem clampR_zero_zero_one : clampR 0 0 1 = (0 : ℝ) := by
  rw [clampR, min_eq_left (zero_le_one), max_self]

theorem clampR_one_zero_one : clampR 1 0 1 = (1 : ℝ) := by
  rw [clampR, min_self, max_eq_right zero_le_one]

theorem clampR_lt_one {p : ℝ} (h : p < 1) : clampR p 0 1 < 1 :=
  max_lt zero_lt_one (lt_of_le_of_lt (min_le_left p 1) h)

theorem clampR_eq_one_of_ge {p : ℝ} (h : 1 ≤ p) : clampR p 0 1 = 1 := by
  rw [clampR, min_eq_right h, max_eq_right zero_le_one]

/-- The post-λ interpolation stays inside the bucket's (divided)
bounds. -/
theorem interpolateWithLambda_mem (lam p prev mass l u : ℝ) (hlu : l ≤ u) :
    l ≤ interpolateWithLambda lam p prev mass l u ∧
      interpolateWithLambda lam p prev mass l u ≤ u := by
  simp only [interpolateWithLambda]
  split_ifs with h1 h2 h3
  · exact ⟨hlu, le_refl u⟩
  · exact ⟨hlu, le_refl u⟩
  · exact ⟨hlu, le_refl u⟩
  · exact ⟨le_clampR _ _ _, clampR_le_hi _ hlu⟩

/-- The post-λ interpolation is monotone in the percentile. -/
theorem interpolateWithLambda_mono (lam p1 p2 prev mass l u : ℝ) (hlu : l ≤ u)
    (hmass : 0 < mass) (h12 : p1 ≤ p2) :
    interpolateWithLambda lam p1 prev mass l u ≤ interpolateWithLambda lam p2 prev mass l u := by
  simp only [interpolateWithLambda]
  by_cases hlam : lam ≤ 0
  · simp only [if_pos hlam]
    exact le_refl u
  simp only [if_neg hlam]
  push_neg at hlam
  set A := Real.exp (-lam * l) with hA
  set B := Real.exp (-lam * u) with hB
  by_cases hden : A - B ≤ 0
  · simp only [if_pos hden]
    exact le_refl u
  simp only [if_neg hden]
  push_neg at hden
  have hr : clampR ((p1 - prev) / mass) 0 (1 - f64Epsilon) ≤
      clampR ((p2 - prev) / mass) 0 (1 - f64Epsilon) :=
    clampR_mono ((div_le_div_right hmass).mpr (sub_le_sub_right h12 prev))
  have hT : A - clampR ((p2 - prev) / mass) 0 (1 - f64Epsilon) * (A - B) ≤
      A - clampR ((p1 - prev) / mass) 0 (1 - f64Epsilon) * (A - B) := by
    have := mul_le_mul_of_nonneg_right hr (le_of_lt hden)
    linarith
  by_cases hT2 : A - clampR ((p2 - prev) / mass) 0 (1 - f64Epsilon) * (A - B) ≤ 0
  · rw [if_pos hT2]
    by_cases hT1 : A - clampR ((p1 - prev) / mass) 0 (1 - f64Epsilon) * (A - B) ≤ 0
    · rw [if_pos hT1]
    · rw [if_neg hT1]
      exact clampR_le_hi _ hlu
  · rw [if_neg hT2]
    have hT1 : ¬ A - clampR ((p1 - prev) / mass) 0 (1 - f64Epsilon) * (A - B) ≤ 0 := by
      push_neg at hT2 ⊢
      exact lt_of_lt_of_le hT2 hT
    rw [if_neg hT1]
    push_neg at hT1 hT2
    apply clampR_mono
    apply (div_le_div_right hlam).mpr
    have hlog : Real.log (A - clampR ((p2 - prev) / mass) 0 (1 - f64Epsilon) * (A - B)) ≤
        Real.log (A - clampR ((p1 - prev) / mass) 0 (1 - f64Epsilon) * (A - B)) :=
      Real.log_le_log hT2 hT
    linarith

/-- The interpolated value stays inside the selected bucket's (divided)
bounds when that bucket is well formed. -/
theorem interpolateInBucket_mem (b : HistogramBucket) (n : ℕ) (p d : ℝ) (hd : 0 < d)
    (hlu : b.lower_bound ≤ b.upper_bound) :
    (b.lower_bound : ℝ) / d ≤ interpolateInBucket b n p d ∧
      interpolateInBucket b n p d ≤ (b.upper_bound : ℝ) / d := by
  have hlu' : (b.lower_bound : ℝ) / d ≤ (b.upper_bound : ℝ) / d :=
    (div_le_div_right hd).mpr (Nat.cast_le.mpr hlu)
  simp only [interpolateInBucket]
  by_cases h1 : (b.upper_bound : ℝ) / d ≤ 0
  · simp only [if_pos h1]
    exact ⟨hlu', le_refl _⟩
  simp only [if_neg h1]
  by_cases h2 : (b.count : ℝ) / (n : ℝ) ≤ 0
  · simp only [if_pos h2]
    exact ⟨hlu', le_refl _⟩
  simp only [if_neg h2]
  by_cases h3 : p ≤ ((b.cumulative_count - b.count : ℕ) : ℝ) / (n : ℝ)
  · simp only [if_pos h3]
    exact ⟨le_refl _, hlu'⟩
  simp only [if_neg h3]
  by_cases h4 : 1 ≤ (b.cumulative_count : ℝ) / (n : ℝ)
  · simp only [if_pos h4]
    by_cases h5 : 0 < (b.lower_bound : ℝ) / d ∧
        ((b.cumulative_count - b.count : ℕ) : ℝ) / (n : ℝ) < 1
    · simp only [if_pos h5]
      exact interpolateWithLambda_mem _ _ _ _ _ _ hlu'
    · simp only [if_neg h5]
      exact ⟨hlu', le_refl _⟩
  · simp only [if_neg h4]
    exact interpolateWithLambda_mem _ _ _ _ _ _ hlu'

/-- The per-bucket interpolation is monotone in the percentile. -/
theorem interpolateInBucket_mono (b : HistogramBucket) (n : ℕ) (p1 p2 d : ℝ) (hd : 0 < d)
    (hlu : b.lower_bound ≤ b.upper_bound) (h12 : p1 ≤ p2) :
    interpolateInBucket b n p1 d ≤ interpolateInBucket b n p2 d := by
  have hlu' : (b.lower_bound : ℝ) / d ≤ (b.upper_bound : ℝ) / d :=
    (div_le_div_right hd).mpr (Nat.cast_le.mpr hlu)
  simp only [interpolateInBucket]
  by_cases h1 : (b.upper_bound : ℝ) / d ≤ 0
  · simp only [if_pos h1]
    exact le_refl _
  simp only [if_neg h1]
  by_cases h2 : (b.count : ℝ) / (n : ℝ) ≤ 0
  · simp only [if_pos h2]
    exact le_refl _
  simp only [if_neg h2]
  by_cases hp2 : p2 ≤ ((b.cumulative_count - b.count : ℕ) : ℝ) / (n : ℝ)
  · have hp1 : p1 ≤ ((b.cumulative_count - b.count : ℕ) : ℝ) / (n : ℝ) := le_trans h12 hp2
    simp only [if_pos hp1, if_pos hp2]
    exact le_refl _
  simp only [if_neg hp2]
  by_cases hp1 : p1 ≤ ((b.cumulative_count - b.count : ℕ) : ℝ) / (n : ℝ)
  · simp only [if_pos hp1]
    by_cases h4 : 1 ≤ (b.cumulative_count : ℝ) / (n : ℝ)
    · simp only [if_pos h4]
      by_cases h5 : 0 < (b.lower_bound : ℝ) / d ∧
          ((b.cumulative_count - b.count : ℕ) : ℝ) / (n : ℝ) < 1
      · simp only [if_pos h5]
        exact (interpolateWithLambda_mem _ _ _ _ _ _ hlu').1
      · simp only [if_neg h5]
        exact hlu'
    · simp only [if_neg h4]
      exact (interpolateWithLambda_mem _ _ _ _ _ _ hlu').1
  · simp only [if_neg hp1]
    by_cases h4 : 1 ≤ (b.cumulative_count : ℝ) / (n : ℝ)
    · simp only [if_pos h4]
      by_cases h5 : 0 < (b.lower_bound : ℝ) / d ∧
          ((b.cumulative_count - b.count : ℕ) : ℝ) / (n : ℝ) < 1
      · simp only [if_pos h5]
        exact interpolateWithLambda_mono _ _ _ _ _ _ _ hlu' (not_le.mp h2) h12
      · simp only [if_neg h5]
        exact le_refl _
    · simp only [if_neg h4]
      exact interpolateWithLambda_mono _ _ _ _ _ _ _ hlu' (not_le.mp h2) h12

theorem selectIdxAux_lt_length (t : ℝ) :
    ∀ (bs : List HistogramBucket) (i : ℕ), selectIdxAux t bs = some i → i < bs.length := by
  intro bs
  induction bs with
  | nil => intro i h; simp [selectIdxAux] at h
  | cons b rest ih =>
    intro i h
    rw [selectIdxAux] at h
    by_cases hc : b.count ≠ 0 ∧ t ≤ (b.cumulative_count : ℝ)
    · rw [if_pos hc] at h
      have : i = 0 := (Option.some.inj h).symm
      subst this
      simp
    · rw [if_neg hc] at h
      cases haux : selectIdxAux t rest with
      | none => rw [haux] at h; simp at h
      | some j =>
        rw [haux] at h
        simp only [Option.map_some'] at h
        have : j + 1 = i := Option.some.inj h
        subst this
        have := ih j haux
        simp
        omega

theorem selectIndex_lt_length (bs : List HistogramBucket) (t : ℝ) (hne : bs ≠ []) :
    selectIndex bs t < bs.length := by
  have hlen : 0 < bs.length := List.length_pos.mpr hne
  rw [selectIndex]
  cases haux : selectIdxAux t bs with
  | none => simp only [Option.getD_none]; omega
  | some i =>
    simp only [Option.getD_some]
    exact selectIdxAux_lt_length t bs i haux

theorem selectIdxAux_mono {t1 t2 : ℝ} (ht : t1 ≤ t2) :
    ∀ (bs : List HistogramBucket) (j : ℕ), selectIdxAux t2 bs = some j →
      ∃ i, i ≤ j ∧ selectIdxAux t1 bs = some i := by
  intro bs
  induction bs with
  | nil => intro j h; simp [selectIdxAux] at h
  | cons b rest ih =>
    intro j h
    by_cases hc1 : b.count ≠ 0 ∧ t1 ≤ (b.cumulative_count : ℝ)
    · exact ⟨0, Nat.zero_le j, by rw [selectIdxAux, if_pos hc1]⟩
    · have hc2 : ¬(b.count ≠ 0 ∧ t2 ≤ (b.cumulative_count : ℝ)) := by
        intro hc
        exact hc1 ⟨hc.1, le_trans ht hc.2⟩
      rw [selectIdxAux, if_neg hc2] at h
      cases haux2 : selectIdxAux t2 rest with
      | none => rw [haux2] at h; simp at h
      | some j2 =>
        rw [haux2] at h
        simp only [Option.map_some'] at h
        have hj : j2 + 1 = j := Option.some.inj h
        rcases ih j2 haux2 with ⟨i2, hij2, hi2⟩
        refine ⟨i2 + 1, by omega, ?_⟩
        rw [selectIdxAux, if_neg hc1, hi2]
        rfl

theorem selectIndex_mono (bs : List HistogramBucket) {t1 t2 : ℝ} (ht : t1 ≤ t2) :
    selectIndex bs t1 ≤ selectIndex bs t2 := by
  rw [selectIndex, selectIndex]
  cases haux2 : selectIdxAux t2 bs with
  | some j =>
    rcases selectIdxAux_mono ht bs j haux2 with ⟨i, hij, hi⟩
    rw [hi]
    simpa using hij
  | none =>
    cases haux1 : selectIdxAux t1 bs with
    | none => exact le_refl _
    | some i =>
      simp only [Option.getD_some, Option.getD_none]
      have := selectIdxAux_lt_length t1 bs i haux1
      omega

/-- `getD` agrees with `get` at an in-range index. -/
theorem getD_eq_get (bs : List HistogramBucket) (i : ℕ) (h : i < bs.length) :
    bs.getD i defaultBucket = bs.get ⟨i, h⟩ := by
  rw [List.getD_eq_getElem?_getD, List.getElem?_eq_getElem h]
  rfl

theorem getLast_eq_getD (bs : List HistogramBucket) (hne : bs ≠ []) :
    bs.getLast hne = bs.getD (bs.length - 1) defaultBucket := by
  have hlt : bs.length - 1 < bs.length := by
    have := List.length_pos.mpr hne
    omega
  rw [getD_eq_get bs _ hlt, List.getLast_eq_get]

/-- Non-overlapping, well-formed buckets: upper bounds are monotone along
the list. -/
theorem buckets_upper_mono (bs : List HistogramBucket)
    (hWf1 : ∀ b ∈ bs, b.lower_bound ≤ b.upper_bound)
    (hWf2 : bs.Pairwise (fun a c => a.upper_bound ≤ c.lower_bound))
    (i j : ℕ) (hij : i ≤ j) (hj : j < bs.length) :
    (bs.get ⟨i, lt_of_le_of_lt hij hj⟩).upper_bound ≤ (bs.get ⟨j, hj⟩).upper_bound := by
  rcases lt_or_eq_of_le hij with hlt | rfl
  · have h1 : (bs.get ⟨i, lt_of_le_of_lt hij hj⟩).upper_bound ≤ (bs.get ⟨j, hj⟩).lower_bound :=
      List.pairwise_iff_get.mp hWf2 _ _ hlt
    exact le_trans h1 (hWf1 _ (bs.get_mem _ _))
  · exact le_refl _

/-- Unfolding of the interpolator when the clamped percentile is below
one. -/
theorem interpolate_eq_of_lt_one (bs : List HistogramBucket) (n : ℕ) (p d : ℝ)
    (hne : bs ≠ []) (hn : n ≠ 0) (hd : 0 < d) (hp : clampR p 0 1 < 1) :
    interpolate_exponential_percentile bs n p d =
      some (interpolateInBucket
        (bs.getD (selectIndex bs (clampR p 0 1 * (n : ℝ))) defaultBucket) n
        (clampR p 0 1) d) := by
  have hg : ¬(bs.isEmpty = true ∨ n = 0 ∨ d ≤ 0) := by
    simp [List.isEmpty_iff, hne, hn, not_le.mpr hd]
  rw [interpolate_exponential_percentile]
  simp only [if_neg hg, if_neg (not_le.mpr hp)]

/-- Unfolding of the interpolator when the clamped percentile reaches
one: the last bucket's upper bound is returned. -/
theorem interpolate_eq_of_ge_one (bs : List HistogramBucket) (n : ℕ) (p d : ℝ)
    (hne : bs ≠ []) (hn : n ≠ 0) (hd : 0 < d) (hp : 1 ≤ clampR p 0 1) :
    interpolate_exponential_percentile bs n p d =
      some (((bs.getLast hne).upper_bound : ℝ) / d) := by
  have hg : ¬(bs.isEmpty = true ∨ n = 0 ∨ d ≤ 0) := by
    simp [List.isEmpty_iff, hne, hn, not_le.mpr hd]
  rw [interpolate_exponential_percentile]
  simp only [if_neg hg, if_pos hp]
  rw [List.getLast?_eq_getLast bs hne]
  rfl

/-- The guards of a successful interpolation. -/
theorem interpolate_some_inv {bs : List HistogramBucket} {n : ℕ} {p d v : ℝ}
    (h : interpolate_exponential_percentile bs n p d = some v) :
    bs ≠ [] ∧ n ≠ 0 ∧ 0 < d := by
  have hg : ¬(bs.isEmpty = true ∨ n = 0 ∨ d ≤ 0) := by
    intro hg
    rw [interpolate_exponential_percentile, if_pos hg] at h
    exact Option.noConfusion h
  push_neg at hg
  refine ⟨?_, hg.2.1, hg.2.2⟩
  intro h0
  exact hg.1 (by simp [h0])

/-- The bucket the interpolator's value is taken from: the last bucket
when the clamped percentile reaches one, otherwise the bucket the
selection loop picks (first non-empty bucket whose cumulative count
reaches the target rank, defaulting to the last index). -/
noncomputable def targetBucket (bs : List HistogramBucket) (n : ℕ) (p : ℝ) : HistogramBucket :=
  if 1 ≤ clampR p 0 1 then bs.getD (bs.length - 1) defaultBucket
  else bs.getD (selectIndex bs (clampR p 0 1 * (n : ℝ))) defaultBucket

/-- C10, amended: whenever every bucket is well formed
(`lower_bound ≤ upper_bound`) and the interpolator's guards hold, it
returns a value, and that value lies within
`[lower_bound/divisor, upper_bound/divisor]` of the target bucket it
selects; since that bucket belongs to the list, the value also lies
within the bounds spanned by the whole bucket list.  Without the
well-formedness hypothesis the interval can be empty and the claim fails
(`interpolate_inverted_bucket_cex`). -/
theorem interpolate_value_within_target_bucket (bs : List HistogramBucket) (n : ℕ) (d p : ℝ)
    (hWf1 : ∀ b ∈ bs, b.lower_bound ≤ b.upper_bound)
    (hne : bs ≠ []) (hn : n ≠ 0) (hd : 0 < d) :
    ∃ v, interpolate_exponential_percentile bs n p d = some v ∧
      targetBucket bs n p ∈ bs ∧
      ((targetBucket bs n p).lower_bound : ℝ) / d ≤ v ∧
      v ≤ ((targetBucket bs n p).upper_bound : ℝ) / d := by
  by_cases hp : 1 ≤ clampR p 0 1
  · have htb : targetBucket bs n p = bs.getLast hne := by
      rw [targetBucket, if_pos hp, ← getLast_eq_getD bs hne]
    refine ⟨((bs.getLast hne).upper_bound : ℝ) / d,
      interpolate_eq_of_ge_one bs n p d hne hn hd hp, ?_, ?_, ?_⟩
    · rw [htb]; exact List.getLast_mem hne
    · rw [htb]
      exact (div_le_div_right hd).mpr
        (Nat.cast_le.mpr (hWf1 _ (List.getLast_mem hne)))
    · rw [htb]
  · have hp' : clampR p 0 1 < 1 := not_le.mp hp
    have hlt := selectIndex_lt_length bs (clampR p 0 1 * (n : ℝ)) hne
    have htb : targetBucket bs n p =
        bs.getD (selectIndex bs (clampR p 0 1 * (n : ℝ))) defaultBucket := by
      rw [targetBucket, if_neg hp]
    have hmem : targetBucket bs n p ∈ bs := by
      rw [htb, getD_eq_get bs _ hlt]
      exact bs.get_mem _ _
    have hlu : (targetBucket bs n p).lower_bound ≤ (targetBucket bs n p).upper_bound :=
      hWf1 _ hmem
    refine ⟨interpolateInBucket (bs.getD (selectIndex bs (clampR p 0 1 * (n : ℝ)))
        defaultBucket) n (clampR p 0 1) d,
      interpolate_eq_of_lt_one bs n p d hne hn hd hp', hmem, ?_, ?_⟩
    · rw [htb]
      exact (interpolateInBucket_mem _ n (clampR p 0 1) d hd (htb ▸ hlu)).1
    · rw [htb]
      exact (interpolateInBucket_mem _ n (clampR p 0 1) d hd (htb ▸ hlu)).2

/-- Witness for C10 at a concrete bucket list. -/
theorem interpolate_value_within_target_bucket_witness :
    ∃ v, interpolate_exponential_percentile [⟨1, 2, 1, 1⟩] 1 0 1 = some v ∧
      targetBucket [⟨1, 2, 1, 1⟩] 1 0 ∈ ([⟨1, 2, 1, 1⟩] : List HistogramBucket) ∧
      ((targetBucket [⟨1, 2, 1, 1⟩] 1 0).lower_bound : ℝ) / 1 ≤ v ∧
      v ≤ ((targetBucket [⟨1, 2, 1, 1⟩] 1 0).upper_bound : ℝ) / 1 :=
  interpolate_value_within_target_bucket [⟨1, 2, 1, 1⟩] 1 1 0
    (by decide) (by decide) (by decide) (by norm_num)

/-- C10 counterexample: a bucket whose recorded lower bound exceeds its
upper bound.  The interpolator selects it and returns its upper value
`0`, which does not lie within the (empty) interval
`[lower/divisor, upper/divisor] = [5, 0]`. -/
theorem interpolate_inverted_bucket_cex :
    interpolate_exponential_percentile [⟨5, 0, 1, 1⟩] 1 (1 / 2) 1 = some 0
    ∧ targetBucket [⟨5, 0, 1, 1⟩] 1 (1 / 2) = ⟨5, 0, 1, 1⟩
    ∧ ¬((((5 : ℕ) : ℝ)) / 1 ≤ 0) := by
  have hclamp : clampR (1 / 2 : ℝ) 0 1 = 1 / 2 := by
    rw [clampR, min_eq_left (by norm_num), max_eq_right (by norm_num)]
  have hsel : selectIndex [⟨5, 0, 1, 1⟩] (clampR (1 / 2 : ℝ) 0 1 * ((1 : ℕ) : ℝ)) = 0 := by
    rw [hclamp, selectIndex, selectIdxAux, if_pos ⟨by decide, by norm_num⟩]
    rfl
  have heq := interpolate_eq_of_lt_one [⟨5, 0, 1, 1⟩] 1 (1 / 2) 1
    (by decide) (by decide) (by norm_num) (by rw [hclamp]; norm_num)
  refine ⟨?_, ?_, by norm_num⟩
  · have hget : ([⟨5, 0, 1, 1⟩] : List HistogramBucket).getD 0 defaultBucket =
        ⟨5, 0, 1, 1⟩ := rfl
    rw [heq, hsel, hget]
    have hval : interpolateInBucket ⟨5, 0, 1, 1⟩ 1 (clampR (1 / 2 : ℝ) 0 1) 1 = 0 := by
      simp only [interpolateInBucket]
      rw [if_pos (by norm_num : (((0 : ℕ) : ℝ)) / 1 ≤ 0)]
      norm_num
    rw [hval]
  · rw [targetBucket, if_neg (by rw [hclamp]; norm_num), hsel]
    rfl

/-! ### Endpoint evaluation (C4) -/

/-- At percentile `0` the interpolator returns the lower bound of the
first bucket, provided that bucket is non-empty with a positive upper
bound (percentile `0` selects the first bucket with nonzero count). -/
theorem interpolate_at_zero (b : HistogramBucket) (rest : List HistogramBucket) (n : ℕ)
    (d : ℝ) (hn : n ≠ 0) (hd : 0 < d) (hc : b.count ≠ 0) (hu : 0 < b.upper_bound) :
    interpolate_exponential_percentile (b :: rest) n 0 d = some ((b.lower_bound : ℝ) / d) := by
  have hp : clampR (0 : ℝ) 0 1 < 1 := by rw [clampR_zero_zero_one]; exact zero_lt_one
  have hsel : selectIndex (b :: rest) (clampR (0 : ℝ) 0 1 * (n : ℝ)) = 0 := by
    rw [clampR_zero_zero_one, zero_mul, selectIndex, selectIdxAux,
      if_pos ⟨hc, Nat.cast_nonneg _⟩]
    rfl
  rw [interpolate_eq_of_lt_one (b :: rest) n 0 d (List.cons_ne_nil b rest) hn hd hp, hsel,
    List.getD_cons_zero, clampR_zero_zero_one]
  have hupos : ¬((b.upper_bound : ℝ) / d ≤ 0) :=
    not_le.mpr (div_pos (Nat.cast_pos.mpr hu) hd)
  have hmass : ¬((b.count : ℝ) / (n : ℝ) ≤ 0) :=
    not_le.mpr (div_pos (Nat.cast_pos.mpr (Nat.pos_of_ne_zero hc))
      (Nat.cast_pos.mpr (Nat.pos_of_ne_zero hn)))
  have hprev : (0 : ℝ) ≤ ((b.cumulative_count - b.count : ℕ) : ℝ) / (n : ℝ) :=
    div_nonneg (Nat.cast_nonneg _) (Nat.cast_nonneg _)
  simp only [interpolateInBucket]
  rw [if_neg hupos, if_neg hmass, if_pos hprev]

/-- At percentile `1` the interpolator returns the last bucket's upper
bound. -/
theorem interpolate_at_one (bs : List HistogramBucket) (n : ℕ) (d : ℝ)
    (hne : bs ≠ []) (hn : n ≠ 0) (hd : 0 < d) :
    interpolate_exponential_percentile bs n 1 d =
      some (((bs.getLast hne).upper_bound : ℝ) / d) :=
  interpolate_eq_of_ge_one bs n 1 d hne hn hd (by rw [clampR_one_zero_one])

/-- C4, amended: for every non-empty bucket list **whose first bucket has
a nonzero count and a positive upper bound**, with positive total count
and positive unit divisor, percentile `0` returns the first bucket's
lower bound divided by the unit divisor, and percentile `1` returns the
last bucket's upper bound divided by the unit divisor.  Without the
first-bucket hypothesis the claim fails: percentile `0` selects the
first bucket with nonzero count (`interpolate_zero_percentile_cex`). -/
theorem interpolate_endpoints (b : HistogramBucket) (rest : List HistogramBucket) (n : ℕ)
    (d : ℝ) (hn : n ≠ 0) (hd : 0 < d) (hc : b.count ≠ 0) (hu : 0 < b.upper_bound) :
    interpolate_exponential_percentile (b :: rest) n 0 d = some ((b.lower_bound : ℝ) / d)
    ∧ interpolate_exponential_percentile (b :: rest) n 1 d =
      some ((((b :: rest).getLast (List.cons_ne_nil b rest)).upper_bound : ℝ) / d) :=
  ⟨interpolate_at_zero b rest n d hn hd hc hu,
    interpolate_at_one (b :: rest) n d (List.cons_ne_nil b rest) hn hd⟩

/-- Witness for C4 at a concrete two-bucket list. -/
theorem interpolate_endpoints_witness :
    interpolate_exponential_percentile [⟨1, 2, 1, 1⟩, ⟨2, 4, 1, 2⟩] 2 0 1 =
      some (((1 : ℕ) : ℝ) / 1)
    ∧ interpolate_exponential_percentile [⟨1, 2, 1, 1⟩, ⟨2, 4, 1, 2⟩] 2 1 1 =
      some (((([⟨1, 2, 1, 1⟩, ⟨2, 4, 1, 2⟩] : List HistogramBucket).getLast
        (List.cons_ne_nil _ _)).upper_bound : ℝ) / 1) :=
  interpolate_endpoints ⟨1, 2, 1, 1⟩ [⟨2, 4, 1, 2⟩] 2 1 (by decide) (by norm_num)
    (by decide) (by decide)

/-- C4 counterexample: when the first bucket has count `0`, percentile
`0` selects the first *non-empty* bucket and returns its lower bound
(`2`), not the first bucket's lower bound (`0`). -/
theorem interpolate_zero_percentile_cex :
    interpolate_exponential_percentile [⟨0, 1, 0, 0⟩, ⟨2, 4, 5, 5⟩] 5 0 1 = some 2
    ∧ ([⟨0, 1, 0, 0⟩, ⟨2, 4, 5, 5⟩] : List HistogramBucket).head? = some ⟨0, 1, 0, 0⟩
    ∧ (((0 : ℕ) : ℝ) / 1 = 0)
    ∧ (2 : ℝ) ≠ 0 := by
  have hp : clampR (0 : ℝ) 0 1 < 1 := by rw [clampR_zero_zero_one]; exact zero_lt_one
  have hsel : selectIndex [⟨0, 1, 0, 0⟩, ⟨2, 4, 5, 5⟩] (clampR (0 : ℝ) 0 1 * ((5 : ℕ) : ℝ)) =
      1 := by
    rw [clampR_zero_zero_one, zero_mul, selectIndex, selectIdxAux,
      if_neg (by simp), selectIdxAux, if_pos ⟨by decide, Nat.cast_nonneg _⟩]
    rfl
  have heq := interpolate_eq_of_lt_one [⟨0, 1, 0, 0⟩, ⟨2, 4, 5, 5⟩] 5 0 1
    (by decide) (by decide) (by norm_num) hp
  refine ⟨?_, rfl, by norm_num, by norm_num⟩
  have hget : ([⟨0, 1, 0, 0⟩, ⟨2, 4, 5, 5⟩] : List HistogramBucket).getD 1 defaultBucket =
      ⟨2, 4, 5, 5⟩ := rfl
  rw [heq, hsel, hget, clampR_zero_zero_one]
  have hval : interpolateInBucket ⟨2, 4, 5, 5⟩ 5 0 1 = ((2 : ℕ) : ℝ) / 1 := by
    simp only [interpolateInBucket]
    rw [if_neg (by norm_num : ¬(((4 : ℕ) : ℝ) / 1 ≤ 0)),
      if_neg (by norm_num : ¬(((5 : ℕ) : ℝ) / ((5 : ℕ) : ℝ) ≤ 0)),
      if_pos (by norm_num : (0 : ℝ) ≤ (((5 - 5 : ℕ) : ℕ) : ℝ) / ((5 : ℕ) : ℝ))]
  rw [hval]
  norm_num

/-! ### Monotonicity in the percentile (C3) -/

/-- C3, amended: the interpolator is monotone in the percentile for
bucket lists whose buckets are well formed (`lower ≤ upper`) and
non-overlapping (every earlier bucket's upper bound is at most every
later bucket's lower bound — as with sorted geometric buckets whose
lower bound is half the upper bound, up to the overlap the integer
halving can introduce).  For arbitrary bucket lists the claim fails
(`interpolate_nonmonotone_cex`): a higher percentile can select a later
bucket with smaller bounds. -/
theorem interpolate_monotone (bs : List HistogramBucket) (n : ℕ) (d p1 p2 : ℝ)
    (hWf1 : ∀ b ∈ bs, b.lower_bound ≤ b.upper_bound)
    (hWf2 : bs.Pairwise (fun a c => a.upper_bound ≤ c.lower_bound))
    (h12 : p1 < p2) :
    ∀ v1 v2, interpolate_exponential_percentile bs n p1 d = some v1 →
      interpolate_exponential_percentile bs n p2 d = some v2 → v1 ≤ v2 := by
  intro v1 v2 h1 h2
  obtain ⟨hne, hn, hd⟩ := interpolate_some_inv h1
  have hq : clampR p1 0 1 ≤ clampR p2 0 1 := clampR_mono (le_of_lt h12)
  have hlenpos : 0 < bs.length := List.length_pos.mpr hne
  by_cases hp1 : 1 ≤ clampR p1 0 1
  · have hp2 : 1 ≤ clampR p2 0 1 := le_trans hp1 hq
    rw [interpolate_eq_of_ge_one bs n p1 d hne hn hd hp1] at h1
    rw [interpolate_eq_of_ge_one bs n p2 d hne hn hd hp2] at h2
    rw [← Option.some.inj h1, ← Option.some.inj h2]
  · have hp1' : clampR p1 0 1 < 1 := not_le.mp hp1
    rw [interpolate_eq_of_lt_one bs n p1 d hne hn hd hp1'] at h1
    have hilt : selectIndex bs (clampR p1 0 1 * (n : ℝ)) < bs.length :=
      selectIndex_lt_length bs _ hne
    rw [getD_eq_get bs _ hilt] at h1
    have hmemi : bs.get ⟨selectIndex bs (clampR p1 0 1 * (n : ℝ)), hilt⟩ ∈ bs :=
      bs.get_mem _ _
    have hb1 := (interpolateInBucket_mem (bs.get ⟨selectIndex bs (clampR p1 0 1 * (n : ℝ)),
      hilt⟩) n (clampR p1 0 1) d hd (hWf1 _ hmemi)).2
    by_cases hp2 : 1 ≤ clampR p2 0 1
    · rw [interpolate_eq_of_ge_one bs n p2 d hne hn hd hp2] at h2
      rw [← Option.some.inj h1, ← Option.some.inj h2]
      have hlast : bs.getLast hne = bs.get ⟨bs.length - 1, by omega⟩ := List.getLast_eq_get bs hne
      have hchain := buckets_upper_mono bs hWf1 hWf2
        (selectIndex bs (clampR p1 0 1 * (n : ℝ))) (bs.length - 1) (by omega) (by omega)
      refine le_trans hb1 ?_
      rw [hlast]
      exact (div_le_div_right hd).mpr (Nat.cast_le.mpr hchain)
    · have hp2' : clampR p2 0 1 < 1 := not_le.mp hp2
      rw [interpolate_eq_of_lt_one bs n p2 d hne hn hd hp2'] at h2
      have hjlt : selectIndex bs (clampR p2 0 1 * (n : ℝ)) < bs.length :=
        selectIndex_lt_length bs _ hne
      rw [getD_eq_get bs _ hjlt] at h2
      have hij : selectIndex bs (clampR p1 0 1 * (n : ℝ)) ≤
          selectIndex bs (clampR p2 0 1 * (n : ℝ)) :=
        selectIndex_mono bs (mul_le_mul_of_nonneg_right hq (Nat.cast_nonneg n))
      have hmemj : bs.get ⟨selectIndex bs (clampR p2 0 1 * (n : ℝ)), hjlt⟩ ∈ bs :=
        bs.get_mem _ _
      rw [← Option.some.inj h1, ← Option.some.inj h2]
      rcases lt_or_eq_of_le hij with hlt | heq
      · have hb2 := (interpolateInBucket_mem
          (bs.get ⟨selectIndex bs (clampR p2 0 1 * (n : ℝ)), hjlt⟩) n
          (clampR p2 0 1) d hd (hWf1 _ hmemj)).1
        have hcross : (bs.get ⟨selectIndex bs (clampR p1 0 1 * (n : ℝ)), hilt⟩).upper_bound ≤
            (bs.get ⟨selectIndex bs (clampR p2 0 1 * (n : ℝ)), hjlt⟩).lower_bound :=
          List.pairwise_iff_get.mp hWf2 _ _ hlt
        refine le_trans hb1 (le_trans ?_ hb2)
        exact (div_le_div_right hd).mpr (Nat.cast_le.mpr hcross)
      · have heqb : bs.get ⟨selectIndex bs (clampR p1 0 1 * (n : ℝ)), hilt⟩ =
            bs.get ⟨selectIndex bs (clampR p2 0 1 * (n : ℝ)), hjlt⟩ := by
          congr 1
          exact Fin.ext heq
        rw [heqb]
        exact interpolateInBucket_mono _ n (clampR p1 0 1) (clampR p2 0 1) d hd
          (hWf1 _ (heqb ▸ hmemi)) hq

/-- Witness for C3 at a concrete one-bucket list and percentiles 0, 1. -/
theorem interpolate_monotone_witness :
    ((1 : ℕ) : ℝ) / 1 ≤ ((2 : ℕ) : ℝ) / 1 :=
  interpolate_monotone [⟨1, 2, 1, 1⟩] 1 1 0 1 (by decide) (by decide) zero_lt_one
    (((1 : ℕ) : ℝ) / 1) (((2 : ℕ) : ℝ) / 1)
    (interpolate_at_zero ⟨1, 2, 1, 1⟩ [] 1 1 (by decide) (by norm_num) (by decide) (by decide))
    (interpolate_at_one [⟨1, 2, 1, 1⟩] 1 1 (List.cons_ne_nil _ _) (by decide) (by norm_num))

/-- C3 counterexample: for an arbitrary (disordered) bucket list the
interpolator is not monotone in the percentile — `p = 0.4` selects the
first bucket (bounds `[10, 20]`) while `p = 0.9` selects the second
(bounds `[0, 1]`), so the value at `0.9` is smaller. -/
theorem interpolate_nonmonotone_cex :
    ((2 : ℝ) / 5 < 9 / 10)
    ∧ (interpolate_exponential_percentile [⟨10, 20, 50, 50⟩, ⟨0, 1, 50, 100⟩] 100
        (9 / 10) 1).getD 0 <
      (interpolate_exponential_percentile [⟨10, 20, 50, 50⟩, ⟨0, 1, 50, 100⟩] 100
        (2 / 5) 1).getD 0
    ∧ (interpolate_exponential_percentile [⟨10, 20, 50, 50⟩, ⟨0, 1, 50, 100⟩] 100
        (2 / 5) 1).isSome = true
    ∧ (interpolate_exponential_percentile [⟨10, 20, 50, 50⟩, ⟨0, 1, 50, 100⟩] 100
        (9 / 10) 1).isSome = true := by
  have hc1 : clampR (2 / 5 : ℝ) 0 1 = 2 / 5 := by
    rw [clampR, min_eq_left (by norm_num), max_eq_right (by norm_num)]
  have hc2 : clampR (9 / 10 : ℝ) 0 1 = 9 / 10 := by
    rw [clampR, min_eq_left (by norm_num), max_eq_right (by norm_num)]
  have hsel1 : selectIndex [⟨10, 20, 50, 50⟩, ⟨0, 1, 50, 100⟩]
      (clampR (2 / 5 : ℝ) 0 1 * ((100 : ℕ) : ℝ)) = 0 := by
    rw [hc1, selectIndex, selectIdxAux, if_pos ⟨by decide, by norm_num⟩]
    rfl
  have hsel2 : selectIndex [⟨10, 20, 50, 50⟩, ⟨0, 1, 50, 100⟩]
      (clampR (9 / 10 : ℝ) 0 1 * ((100 : ℕ) : ℝ)) = 1 := by
    rw [hc2, selectIndex, selectIdxAux, if_neg (by push_neg; intro; norm_num),
      selectIdxAux, if_pos ⟨by decide, by norm_num⟩]
    rfl
  have h1 := interpolate_eq_of_lt_one [⟨10, 20, 50, 50⟩, ⟨0, 1, 50, 100⟩] 100 (2 / 5) 1
    (by decide) (by decide) (by norm_num) (by rw [hc1]; norm_num)
  have h2 := interpolate_eq_of_lt_one [⟨10, 20, 50, 50⟩, ⟨0, 1, 50, 100⟩] 100 (9 / 10) 1
    (by decide) (by decide) (by norm_num) (by rw [hc2]; norm_num)
  have hget0 : ([⟨10, 20, 50, 50⟩, ⟨0, 1, 50, 100⟩] : List HistogramBucket).getD 0
      defaultBucket = ⟨10, 20, 50, 50⟩ := rfl
  have hget1 : ([⟨10, 20, 50, 50⟩, ⟨0, 1, 50, 100⟩] : List HistogramBucket).getD 1
      defaultBucket = ⟨0, 1, 50, 100⟩ := rfl
  rw [hsel1, hget0] at h1
  rw [hsel2, hget1] at h2
  have hv1 := (interpolateInBucket_mem ⟨10, 20, 50, 50⟩ 100 (clampR (2 / 5 : ℝ) 0 1) 1
    (by norm_num) (by decide)).1
  have hv2 := (interpolateInBucket_mem ⟨0, 1, 50, 100⟩ 100 (clampR (9 / 10 : ℝ) 0 1) 1
    (by norm_num) (by decide)).2
  refine ⟨by norm_num, ?_, ?_, ?_⟩
  · rw [h1, h2]
    simp only [Option.getD_some]
    have e1 : ((10 : ℕ) : ℝ) / 1 ≤ interpolateInBucket ⟨10, 20, 50, 50⟩ 100
        (clampR (2 / 5 : ℝ) 0 1) 1 := hv1
    have e2 : interpolateInBucket ⟨0, 1, 50, 100⟩ 100 (clampR (9 / 10 : ℝ) 0 1) 1 ≤
        ((1 : ℕ) : ℝ) / 1 := hv2
    have : ((1 : ℕ) : ℝ) / 1 < ((10 : ℕ) : ℝ) / 1 := by norm_num
    linarith
  · rw [h1]; rfl
  · rw [h2]; rfl

end FdbOtel
